import Mathlib

/-!
Verification of the kanban-board backend mutation pipeline.

The development shallowly embeds the server-side task pipeline:
the field-level conflict resolver (backend/src/services/conflictResolver.ts),
the task service (backend/src/services/taskService.ts), the pure ordering
algorithm (backend/src/services/orderingAlgorithm.ts), the in-memory store
(backend/src/db/memoryStore.ts), and the WebSocket message router and
broadcaster.

Modelling conventions:
- task `position` values are rationals (the code computes with binary
  floats; all claims settled here are about exact arithmetic);
- timestamps (`createdAt` / `updatedAt`) are omitted: every write
  advances `updatedAt` by a database trigger or an explicit `now()`,
  so no claim in scope depends on them;
- server-assigned ids are drawn from a natural-number supply instead of
  UUIDs;
- the throwing paths of the services (task not found) are modelled with
  `Option`, `none` standing for the thrown exception.
-/

namespace Kanban

/-- The three board columns (types/index.ts, `Column`). -/
inductive Column where
  | todo
  | inprogress
  | done
deriving DecidableEq

/-- A task row (types/index.ts, `Task`), timestamps omitted. -/
structure Task where
  id : Nat
  title : String
  description : String
  columnId : Column
  position : ℚ
  version : Nat
  titleVersion : Nat
  descriptionVersion : Nat
  columnVersion : Nat
  positionVersion : Nat
deriving DecidableEq

/-- The four logical fields a mutation may touch (types/index.ts,
`TaskMutation` keys). -/
inductive TaskField where
  | title
  | description
  | columnId
  | position
deriving DecidableEq

/-- A value proposed for one logical field. -/
inductive FieldValue where
  | str (s : String)
  | col (c : Column)
  | num (q : ℚ)
deriving DecidableEq

/-- A change map over the four logical fields (types/index.ts,
`TaskMutation`); `none` means the field is absent from the map. -/
structure TaskMutation where
  title : Option String := none
  description : Option String := none
  columnId : Option Column := none
  position : Option ℚ := none
deriving DecidableEq

/-- Look up one field of a change map, injecting it into `FieldValue`. -/
def TaskMutation.get (m : TaskMutation) : TaskField → Option FieldValue
  | .title => m.title.map FieldValue.str
  | .description => m.description.map FieldValue.str
  | .columnId => m.columnId.map FieldValue.col
  | .position => m.position.map FieldValue.num

/-- The per-field version stamp of a task
(conflictResolver.ts, `FIELD_VERSION_MAP`). -/
def fieldVersion (t : Task) : TaskField → Nat
  | .title => t.titleVersion
  | .description => t.descriptionVersion
  | .columnId => t.columnVersion
  | .position => t.positionVersion

/-- The current value a task holds for a logical field. -/
def fieldValue (t : Task) : TaskField → FieldValue
  | .title => .str t.title
  | .description => .str t.description
  | .columnId => .col t.columnId
  | .position => .num t.position

/-- The fields present in a change map, in the fixed field order
(the `Object.entries(changes)` loop of `analyseConflict`). -/
def changeEntries (m : TaskMutation) : List TaskField :=
  (if m.title.isSome then [TaskField.title] else []) ++
  (if m.description.isSome then [TaskField.description] else []) ++
  (if m.columnId.isSome then [TaskField.columnId] else []) ++
  (if m.position.isSome then [TaskField.position] else [])

/-- Keep only the entries of `m` whose field lies in `fs` (the
`mergedChanges` object built up by the `analyseConflict` loop). -/
def restrictMutation (m : TaskMutation) (fs : List TaskField) : TaskMutation where
  title := if TaskField.title ∈ fs then m.title else none
  description := if TaskField.description ∈ fs then m.description else none
  columnId := if TaskField.columnId ∈ fs then m.columnId else none
  position := if TaskField.position ∈ fs then m.position else none

/-- Result of conflict analysis (conflictResolver.ts, `ConflictAnalysis`). -/
structure ConflictAnalysis where
  mergedChanges : TaskMutation
  mergedFields : List TaskField
  rejectedFields : List TaskField
  hasConflict : Bool
  fullyRejected : Bool
deriving DecidableEq

/-- conflictResolver.ts, `analyseConflict`: compare each requested field's
stamp against the client's `baseVersion`; stamps `≤ baseVersion` merge,
stamps `> baseVersion` reject. -/
def analyseConflict (current : Task) (baseVersion : Nat) (changes : TaskMutation) :
    ConflictAnalysis :=
  let entries := changeEntries changes
  let mergedFields := entries.filter (fun f => decide (fieldVersion current f ≤ baseVersion))
  let rejectedFields := entries.filter (fun f => decide (baseVersion < fieldVersion current f))
  { mergedChanges := restrictMutation changes mergedFields
    mergedFields := mergedFields
    rejectedFields := rejectedFields
    hasConflict := decide (0 < rejectedFields.length)
    fullyRejected := decide (mergedFields.length = 0) && decide (0 < rejectedFields.length) }

/-- Resolution tag of a conflict payload (types/index.ts,
`ConflictResolvedPayload.resolution`). -/
inductive Resolution where
  | merged
  | rejected
deriving DecidableEq

/-- types/index.ts, `ConflictResolvedPayload`. -/
structure ConflictResolvedPayload where
  taskId : Nat
  resolution : Resolution
  task : Task
  mergedFields : List TaskField
  rejectedFields : List TaskField
  reason : String
deriving DecidableEq

/-- The printed name of a field, as in the source's string templates. -/
def fieldName : TaskField → String
  | .title => "title"
  | .description => "description"
  | .columnId => "columnId"
  | .position => "position"

/-- `fields.join(', ')` over field names. -/
def joinFields (fs : List TaskField) : String :=
  String.intercalate ", " (fs.map fieldName)

/-- conflictResolver.ts, `buildResolutionReason`. -/
def buildResolutionReason (analysis : ConflictAnalysis) : String :=
  if analysis.fullyRejected then
    "All changed fields (" ++ joinFields analysis.rejectedFields ++
      ") were already modified by another client. Server state preserved (last-write-wins)."
  else if analysis.hasConflict then
    "Partial merge: applied [" ++ joinFields analysis.mergedFields ++ "]. Fields [" ++
      joinFields analysis.rejectedFields ++ "] conflicted — server state preserved."
  else
    "No conflict — changes applied cleanly."

/-- The REJECTED conflict payload built by `updateTask` / `moveTask` /
`mem_updateTask` / `mem_moveTask` on a fully rejected analysis. -/
def rejectedPayload (current : Task) (analysis : ConflictAnalysis) : ConflictResolvedPayload :=
  { taskId := current.id
    resolution := .rejected
    task := current
    mergedFields := []
    rejectedFields := analysis.rejectedFields
    reason := buildResolutionReason analysis }

/-- The MERGED conflict payload built on a partial merge. -/
def mergedPayload (updated : Task) (analysis : ConflictAnalysis) : ConflictResolvedPayload :=
  { taskId := updated.id
    resolution := .merged
    task := updated
    mergedFields := analysis.mergedFields
    rejectedFields := analysis.rejectedFields
    reason := buildResolutionReason analysis }

/-- One iteration of the `bumpVersion` loop of memoryStore.ts: set the
stamp of field `f` to `newVersion`. -/
def bumpStamp (newVersion : Nat) (t : Task) (f : TaskField) : Task :=
  match f with
  | .title => { t with titleVersion := newVersion }
  | .description => { t with descriptionVersion := newVersion }
  | .columnId => { t with columnVersion := newVersion }
  | .position => { t with positionVersion := newVersion }

/-- memoryStore.ts, `bumpVersion`: advance `version` by one and stamp every
field in `fields` with the new version. -/
def bumpVersion (task : Task) (fields : List TaskField) : Task :=
  let newVersion := task.version + 1
  fields.foldl (bumpStamp newVersion) { task with version := newVersion }

/-- Assign every entry of a change map onto a task (the
`Object.entries(mergedChanges)` assignment loop). -/
def applyMutation (t : Task) (m : TaskMutation) : Task :=
  { t with
    title := m.title.getD t.title
    description := m.description.getD t.description
    columnId := m.columnId.getD t.columnId
    position := m.position.getD t.position }

/-- The task table / in-memory task array. -/
abbrev Store := List Task

/-- `tasks.find(t => t.id === taskId)` (also the row read by
`SELECT * FROM tasks WHERE id = $1`). -/
def findTask (tasks : Store) (taskId : Nat) : Option Task :=
  tasks.find? (fun t => t.id == taskId)

/-- `tasks[idx] = updated` after `idx = findIndex(t => t.id === taskId)`:
replace the first task with the given id. -/
def replaceFirst : Store → Nat → Task → Store
  | [], _, _ => []
  | t :: rest, taskId, t' =>
    if t.id == taskId then t' :: rest else t :: replaceFirst rest taskId t'

/-- `tasks.splice(idx, 1)`: remove the first task with the given id. -/
def removeFirst : Store → Nat → Store
  | [], _ => []
  | t :: rest, taskId => if t.id == taskId then rest else t :: removeFirst rest taskId

/-- `UPDATE tasks SET … WHERE id = $n`: replace every row with the given id
(the id is a primary key, so at most one row in well-formed stores). -/
def updateRows (tasks : Store) (taskId : Nat) (t' : Task) : Store :=
  tasks.map (fun t => if t.id == taskId then t' else t)

/-- `DELETE FROM tasks WHERE id = $1`. -/
def deleteRows (tasks : Store) (taskId : Nat) : Store :=
  tasks.filter (fun t => !(t.id == taskId))

/-- orderingAlgorithm.ts, `INITIAL_STEP`. -/
def INITIAL_STEP : ℚ := 65536

/-- orderingAlgorithm.ts, `MIN_GAP`. -/
def MIN_GAP : ℚ := 1 / 2

/-- orderingAlgorithm.ts, `positionBetween`, over exact arithmetic. -/
def positionBetween : Option ℚ → Option ℚ → Option ℚ
  | none, none => some INITIAL_STEP
  | none, some afterPosition =>
    let pos := afterPosition / 2
    if pos < MIN_GAP then none else some pos
  | some beforePosition, none => some (beforePosition + INITIAL_STEP)
  | some beforePosition, some afterPosition =>
    let gap := afterPosition - beforePosition
    if gap < MIN_GAP then none else some (beforePosition + gap / 2)

/-- Client payload of CREATE_TASK (types/index.ts, `CreateTaskPayload`);
`clientId` and `tempId` are not read by the service and are omitted. -/
structure CreateTaskPayload where
  title : String
  description : String
  columnId : Column
  position : ℚ
deriving DecidableEq

/-- The `changes` object of an UPDATE_TASK payload: the payload type
restricts it to the `title` and `description` fields. -/
structure UpdateChanges where
  title : Option String := none
  description : Option String := none
deriving DecidableEq

/-- View an update-change object as a change map over all four fields. -/
def UpdateChanges.toMutation (c : UpdateChanges) : TaskMutation :=
  { title := c.title, description := c.description }

/-- types/index.ts, `UpdateTaskPayload` (`clientId` omitted). -/
structure UpdateTaskPayload where
  taskId : Nat
  baseVersion : Nat
  changes : UpdateChanges
deriving DecidableEq

/-- types/index.ts, `MoveTaskPayload` (`clientId` omitted). -/
structure MoveTaskPayload where
  taskId : Nat
  baseVersion : Nat
  columnId : Column
  position : ℚ
deriving DecidableEq

/-- types/index.ts, `DeleteTaskPayload` (`clientId` and the unused
`baseVersion` omitted). -/
structure DeleteTaskPayload where
  taskId : Nat
deriving DecidableEq

/-- Result of `updateTask` / `mem_updateTask`, with the post-state store
made explicit. -/
structure UpdateResult where
  task : Task
  conflict : Option ConflictResolvedPayload
  store : Store
deriving DecidableEq

/-- Result of `moveTask` / `mem_moveTask`. -/
structure MoveResult where
  task : Task
  conflict : Option ConflictResolvedPayload
  needsRebalance : Bool
  store : Store
deriving DecidableEq

/-- Result of `deleteTask` / `mem_deleteTask`. -/
structure DeleteResult where
  deleted : Bool
  task : Option Task
  store : Store
deriving DecidableEq

/-- memoryStore.ts, `makeTask`: a fresh task with all versions 1
(matching the SQL column defaults of 001_initial.sql). -/
def makeTask (newId : Nat) (columnId : Column) (position : ℚ)
    (title description : String) : Task :=
  { id := newId
    title := title
    description := description
    columnId := columnId
    position := position
    version := 1
    titleVersion := 1
    descriptionVersion := 1
    columnVersion := 1
    positionVersion := 1 }

/-- `String.prototype.trim`: strip leading and trailing whitespace
(structural model of the builtin). -/
def trimString (s : String) : String :=
  String.mk (((s.data.dropWhile Char.isWhitespace).reverse.dropWhile Char.isWhitespace).reverse)

/-- `payload.title.trim() || 'New Task'`. -/
def trimOrDefault (title : String) : String :=
  if trimString title = "" then "New Task" else trimString title

/-- `Math.abs` over exact arithmetic. -/
def absQ (q : ℚ) : ℚ := if q < 0 then -q else q

/-- memoryStore.ts, `mem_positionAtEnd`:
`Math.max(...positions) + INITIAL_STEP`, or `INITIAL_STEP` when empty. -/
def mem_positionAtEnd (tasks : Store) (columnId : Column) : ℚ :=
  let positions := (tasks.filter (fun t => t.columnId == columnId)).map Task.position
  match positions with
  | [] => INITIAL_STEP
  | q :: qs => qs.foldl max q + INITIAL_STEP

/-- taskService/orderingService `positionAtEnd`:
`COALESCE(MAX(position), 0) + INITIAL_STEP`. -/
def sql_positionAtEnd (tasks : Store) (columnId : Column) : ℚ :=
  let positions := (tasks.filter (fun t => t.columnId == columnId)).map Task.position
  match positions with
  | [] => 0 + INITIAL_STEP
  | q :: qs => qs.foldl max q + INITIAL_STEP

/-- memoryStore.ts, `mem_createTask`; the fresh id is supplied by the
caller (standing for `uuidv4()`). -/
def mem_createTask (newId : Nat) (tasks : Store) (p : CreateTaskPayload) : Task × Store :=
  let pos := if 0 < p.position then p.position else mem_positionAtEnd tasks p.columnId
  let task := makeTask newId p.columnId pos (trimOrDefault p.title) p.description
  (task, tasks ++ [task])

/-- taskService.ts, `createTask`; the fresh id stands for the
database-assigned `gen_random_uuid()`. -/
def sql_createTask (newId : Nat) (tasks : Store) (p : CreateTaskPayload) : Task × Store :=
  let pos := if 0 < p.position then p.position else sql_positionAtEnd tasks p.columnId
  let task := makeTask newId p.columnId pos (trimOrDefault p.title) p.description
  (task, tasks ++ [task])

/-- memoryStore.ts, `mem_updateTask`; `none` models the thrown
`Task not found` error. -/
def mem_updateTask (tasks : Store) (p : UpdateTaskPayload) : Option UpdateResult :=
  match findTask tasks p.taskId with
  | none => none
  | some current =>
    let analysis := analyseConflict current p.baseVersion p.changes.toMutation
    if analysis.fullyRejected then
      some { task := current
             conflict := some (rejectedPayload current analysis)
             store := tasks }
    else
      let changedFields := changeEntries analysis.mergedChanges
      let updated := applyMutation (bumpVersion current changedFields) analysis.mergedChanges
      let conflict :=
        if analysis.hasConflict then some (mergedPayload updated analysis) else none
      some { task := updated
             conflict := conflict
             store := replaceFirst tasks p.taskId updated }

/-- taskService.ts, `updateTask`: the dynamic UPDATE touches only the
merged `title` / `description` columns (plus `version`). -/
def sql_updateTask (tasks : Store) (p : UpdateTaskPayload) : Option UpdateResult :=
  match findTask tasks p.taskId with
  | none => none
  | some current =>
    let analysis := analyseConflict current p.baseVersion p.changes.toMutation
    if analysis.fullyRejected then
      some { task := current
             conflict := some (rejectedPayload current analysis)
             store := tasks }
    else
      let newVersion := current.version + 1
      let updated := { current with
        title := analysis.mergedChanges.title.getD current.title
        titleVersion :=
          if analysis.mergedChanges.title.isSome then newVersion else current.titleVersion
        description := analysis.mergedChanges.description.getD current.description
        descriptionVersion :=
          if analysis.mergedChanges.description.isSome then newVersion
          else current.descriptionVersion
        version := newVersion }
      let conflict :=
        if analysis.hasConflict then some (mergedPayload updated analysis) else none
      some { task := updated
             conflict := conflict
             store := updateRows tasks p.taskId updated }

/-- memoryStore.ts, `mem_moveTask`. -/
def mem_moveTask (tasks : Store) (p : MoveTaskPayload) : Option MoveResult :=
  match findTask tasks p.taskId with
  | none => none
  | some current =>
    let changes : TaskMutation := { columnId := some p.columnId, position := some p.position }
    let analysis := analyseConflict current p.baseVersion changes
    if analysis.fullyRejected then
      some { task := current
             conflict := some (rejectedPayload current analysis)
             needsRebalance := false
             store := tasks }
    else
      let newColumnId := analysis.mergedChanges.columnId.getD current.columnId
      let newPosition := analysis.mergedChanges.position.getD current.position
      let updated0 := bumpVersion current [TaskField.columnId, TaskField.position]
      let updated := { updated0 with columnId := newColumnId, position := newPosition }
      let tasks1 := replaceFirst tasks p.taskId updated
      let neighbours :=
        (tasks1.filter (fun t => t.columnId == newColumnId && t.id != updated.id)).map
          (fun t => absQ (t.position - newPosition))
      let needsRebalance := neighbours.any (fun d2 => decide (d2 < MIN_GAP))
      let conflict :=
        if analysis.hasConflict then some (mergedPayload updated analysis) else none
      some { task := updated
             conflict := conflict
             needsRebalance := needsRebalance
             store := tasks1 }

/-- taskService.ts, `moveTask`: `column_version`, `position_version` and
`version` are all set to the new version; the rebalance probe reads the
two same-column rows nearest to the new position. -/
def sql_moveTask (tasks : Store) (p : MoveTaskPayload) : Option MoveResult :=
  match findTask tasks p.taskId with
  | none => none
  | some current =>
    let changes : TaskMutation := { columnId := some p.columnId, position := some p.position }
    let analysis := analyseConflict current p.baseVersion changes
    if analysis.fullyRejected then
      some { task := current
             conflict := some (rejectedPayload current analysis)
             needsRebalance := false
             store := tasks }
    else
      let newVersion := current.version + 1
      let newColumnId := analysis.mergedChanges.columnId.getD current.columnId
      let newPosition := analysis.mergedChanges.position.getD current.position
      let updated := { current with
        columnId := newColumnId
        position := newPosition
        columnVersion := newVersion
        positionVersion := newVersion
        version := newVersion }
      let tasks1 := updateRows tasks p.taskId updated
      let dists :=
        (tasks1.filter (fun t => t.columnId == newColumnId && t.id != p.taskId)).map
          (fun t => absQ (t.position - newPosition))
      let nearest := (dists.insertionSort (· ≤ ·)).take 2
      let needsRebalance := nearest.any (fun d2 => decide (d2 < MIN_GAP))
      let conflict :=
        if analysis.hasConflict then some (mergedPayload updated analysis) else none
      some { task := updated
             conflict := conflict
             needsRebalance := needsRebalance
             store := tasks1 }

/-- memoryStore.ts, `mem_deleteTask`. -/
def mem_deleteTask (tasks : Store) (p : DeleteTaskPayload) : DeleteResult :=
  match findTask tasks p.taskId with
  | none => { deleted := false, task := none, store := tasks }
  | some t => { deleted := true, task := some t, store := removeFirst tasks p.taskId }

/-- taskService.ts, `deleteTask` (`DELETE … RETURNING *`). -/
def sql_deleteTask (tasks : Store) (p : DeleteTaskPayload) : DeleteResult :=
  match (tasks.filter (fun t => t.id == p.taskId)) with
  | [] => { deleted := false, task := none, store := tasks }
  | t :: _ => { deleted := true, task := some t, store := deleteRows tasks p.taskId }

/-- Comparison used to order a column's rows by position (the SQL
`ORDER BY position` and the JS `sort((a, b) => a.position - b.position)`). -/
def posLe (a b : Task) : Prop := a.position ≤ b.position

instance : DecidableRel posLe := fun a b =>
  inferInstanceAs (Decidable (a.position ≤ b.position))

instance : IsTotal Task posLe := ⟨fun a b => le_total a.position b.position⟩

instance : IsTrans Task posLe := ⟨fun _ _ _ h1 h2 => le_trans h1 h2⟩

/-- A column's tasks in position order (ties keep store order; the JS sort
is stable, and the SQL `ORDER BY position` is modelled the same way). -/
def columnTasksSorted (tasks : Store) (c : Column) : List Task :=
  (tasks.filter (fun t => t.columnId == c)).insertionSort posLe

/-- One rebalance step: `bumpVersion(row, ['position'])` with
`position = (i+1)·INITIAL_STEP`. -/
def rebalTransform (i : Nat) (t : Task) : Task :=
  { t with
    position := ((i : ℚ) + 1) * INITIAL_STEP
    version := t.version + 1
    positionVersion := t.version + 1 }

/-- The rebalance loop shared by `mem_rebalanceColumn` and the SQL
`rebalanceColumn`: walk the sorted snapshot, rewriting each row in the
store and collecting the updated rows. -/
def rebalanceGo : List Task → Nat → Store → List Task × Store
  | [], _, tasks => ([], tasks)
  | t :: rest, i, tasks =>
    let newTask := rebalTransform i t
    let res := rebalanceGo rest (i + 1) (replaceFirst tasks t.id newTask)
    (newTask :: res.1, res.2)

/-- memoryStore.ts, `mem_rebalanceColumn`. -/
def mem_rebalanceColumn (tasks : Store) (c : Column) : List Task × Store :=
  rebalanceGo (columnTasksSorted tasks c) 0 tasks

/-- The SQL rebalance loop, whose UPDATE rewrites every row with the
snapshot row's id. -/
def sql_rebalanceGo : List Task → Nat → Store → List Task × Store
  | [], _, tasks => ([], tasks)
  | t :: rest, i, tasks =>
    let newTask := rebalTransform i t
    let res := sql_rebalanceGo rest (i + 1) (updateRows tasks t.id newTask)
    (newTask :: res.1, res.2)

/-- taskService/orderingService `rebalanceColumn`. -/
def sql_rebalanceColumn (tasks : Store) (c : Column) : List Task × Store :=
  sql_rebalanceGo (columnTasksSorted tasks c) 0 tasks

/-- A connected client (broadcaster.ts keys connections by clientId). -/
abbrev ClientId := Nat

/-- Server → client messages relevant to the mutation pipeline
(types/index.ts, `ServerMessage`). -/
inductive ServerMessage where
  | taskUpdated (task : Task)
  | taskMoved (task : Task)
  | conflictResolved (payload : ConflictResolvedPayload)
  | rebalanced (columnId : Column) (tasks : List Task)
  | error (code : String) (message : String) (taskId : Option Nat)
deriving DecidableEq

/-- broadcaster.ts, `sendTo`: deliver to one client if connected. -/
def sendTo (conns : List ClientId) (clientId : ClientId) (msg : ServerMessage) :
    List (ClientId × ServerMessage) :=
  if clientId ∈ conns then [(clientId, msg)] else []

/-- broadcaster.ts, `broadcast(message, skipClientId?)`: deliver to every
connection whose id differs from the (optional) skipped id. -/
def broadcast (conns : List ClientId) (msg : ServerMessage) (skipClientId : Option ClientId) :
    List (ClientId × ServerMessage) :=
  (conns.filter (fun c => !(some c == skipClientId))).map (fun c => (c, msg))

/-- broadcaster.ts, `broadcastAll`. -/
def broadcastAll (conns : List ClientId) (msg : ServerMessage) :
    List (ClientId × ServerMessage) :=
  broadcast conns msg none

/-- Messages emitted while routing one client message, plus the store
afterwards. -/
structure RouterResult where
  sends : List (ClientId × ServerMessage)
  store : Store
deriving DecidableEq

/-- The message of the `Task ${taskId} not found` error thrown by the
service and caught in `handleMessage`. -/
def notFoundMessage (taskId : Nat) : String :=
  "Task " ++ toString taskId ++ " not found"

/-- messageRouter.ts, `handleUpdateTask`, together with the catch-all of
`handleMessage` that turns the service's thrown not-found error into an
`INTERNAL_ERROR` message to the sender. -/
def handleUpdateTaskMsg (conns : List ClientId) (tasks : Store) (sender : ClientId)
    (p : UpdateTaskPayload) : RouterResult :=
  match sql_updateTask tasks p with
  | none =>
    { sends := sendTo conns sender (.error "INTERNAL_ERROR" (notFoundMessage p.taskId) none)
      store := tasks }
  | some r =>
    match r.conflict with
    | some c =>
      if c.resolution == Resolution.rejected then
        { sends := sendTo conns sender (.conflictResolved c) ++
            broadcast conns (.taskUpdated r.task) none
          store := r.store }
      else
        { sends := sendTo conns sender (.conflictResolved c) ++
            broadcastAll conns (.taskUpdated r.task)
          store := r.store }
    | none =>
      { sends := broadcastAll conns (.taskUpdated r.task), store := r.store }

/-- The tail of `handleMoveTask` shared by the merged and clean branches:
broadcast TASK_MOVED to all, then rebalance and broadcast REBALANCED when
the move flagged `needsRebalance`. -/
def moveTail (conns : List ClientId) (firstSends : List (ClientId × ServerMessage))
    (r : MoveResult) : RouterResult :=
  let sends1 := firstSends ++ broadcastAll conns (.taskMoved r.task)
  if r.needsRebalance then
    let reb := sql_rebalanceColumn r.store r.task.columnId
    { sends := sends1 ++ broadcastAll conns (.rebalanced r.task.columnId reb.1)
      store := reb.2 }
  else
    { sends := sends1, store := r.store }

/-- messageRouter.ts, `handleMoveTask`, with the same catch-all treatment
of the thrown not-found error. -/
def handleMoveTaskMsg (conns : List ClientId) (tasks : Store) (sender : ClientId)
    (p : MoveTaskPayload) : RouterResult :=
  match sql_moveTask tasks p with
  | none =>
    { sends := sendTo conns sender (.error "INTERNAL_ERROR" (notFoundMessage p.taskId) none)
      store := tasks }
  | some r =>
    match r.conflict with
    | some c =>
      if c.resolution == Resolution.rejected then
        { sends := sendTo conns sender (.conflictResolved c) ++
            broadcast conns (.taskMoved r.task) none
          store := r.store }
      else
        moveTail conns (sendTo conns sender (.conflictResolved c)) r
    | none => moveTail conns [] r

/-- Spec-side invariant: every stored position is strictly positive. -/
def PositionsPositive (s : Store) : Prop := ∀ t ∈ s, 0 < t.position

/-- Spec-side invariant: two distinct rows of one column never share a
position. -/
def SameColumnDistinct (s : Store) : Prop :=
  s.Pairwise (fun a b => a.columnId = b.columnId → a.position ≠ b.position)

/-- The position invariant of the spec (section 3, invariants 3 and 4). -/
def PosInvariant (s : Store) : Prop := PositionsPositive s ∧ SameColumnDistinct s

instance : DecidablePred PositionsPositive := fun s =>
  inferInstanceAs (Decidable (∀ t ∈ s, 0 < t.position))

instance : DecidablePred SameColumnDistinct := fun s =>
  inferInstanceAs
    (Decidable (s.Pairwise (fun a b : Task => a.columnId = b.columnId → a.position ≠ b.position)))

instance : DecidablePred PosInvariant := fun s =>
  inferInstanceAs (Decidable (PositionsPositive s ∧ SameColumnDistinct s))

/-- States reachable from the empty store through the store operations,
exactly as the claim quantifies them: payload positions are arbitrary.
The index is the id supply for `createTask`. -/
inductive ReachClaim : Nat → Store → Prop where
  | init : ReachClaim 0 []
  | create (n : Nat) (s : Store) (p : CreateTaskPayload) :
      ReachClaim n s → ReachClaim (n + 1) (mem_createTask n s p).2
  | update (n : Nat) (s : Store) (p : UpdateTaskPayload) (r : UpdateResult) :
      ReachClaim n s → mem_updateTask s p = some r → ReachClaim n r.store
  | move (n : Nat) (s : Store) (p : MoveTaskPayload) (r : MoveResult) :
      ReachClaim n s → mem_moveTask s p = some r → ReachClaim n r.store
  | delete (n : Nat) (s : Store) (p : DeleteTaskPayload) :
      ReachClaim n s → ReachClaim n (mem_deleteTask s p).store
  | rebalance (n : Nat) (s : Store) (c : Column) :
      ReachClaim n s → ReachClaim n (mem_rebalanceColumn s c).2

/-- States reachable when client-supplied positions are constrained: a
`createTask` with an explicit (positive) position must not collide inside
its column, and a `moveTask` must land on a positive position free in the
resulting column. Server-computed positions are unconstrained. -/
inductive ReachSafe : Nat → Store → Prop where
  | init : ReachSafe 0 []
  | create (n : Nat) (s : Store) (p : CreateTaskPayload)
      (hp : p.position ≤ 0 ∨ (0 < p.position ∧
        ∀ t ∈ s, t.columnId = p.columnId → t.position ≠ p.position)) :
      ReachSafe n s → ReachSafe (n + 1) (mem_createTask n s p).2
  | update (n : Nat) (s : Store) (p : UpdateTaskPayload) (r : UpdateResult) :
      ReachSafe n s → mem_updateTask s p = some r → ReachSafe n r.store
  | move (n : Nat) (s : Store) (p : MoveTaskPayload) (r : MoveResult)
      (hpos : 0 < r.task.position)
      (hfresh : ∀ t ∈ s, t.id ≠ p.taskId →
        t.columnId = r.task.columnId → t.position ≠ r.task.position) :
      ReachSafe n s → mem_moveTask s p = some r → ReachSafe n r.store
  | delete (n : Nat) (s : Store) (p : DeleteTaskPayload) :
      ReachSafe n s → ReachSafe n (mem_deleteTask s p).store
  | rebalance (n : Nat) (s : Store) (c : Column) :
      ReachSafe n s → ReachSafe n (mem_rebalanceColumn s c).2

/-- Specification device for the net effect of the rebalance loop on one
stored row: the row whose id matches the `j`-th snapshot row becomes that
snapshot row's transform; other rows are untouched. -/
def applyRebal : List Task → Nat → Task → Task
  | [], _, u => u
  | t :: rest, i, u =>
    if u.id == t.id then rebalTransform i t else applyRebal rest (i + 1) u

/-- A create payload carrying an explicit client position. -/
def dupCreate : CreateTaskPayload :=
  { title := "A", description := "", columnId := .todo, position := 65536 }

/-- A create payload that lets the server append (`position ≤ 0`). -/
def appendCreate : CreateTaskPayload :=
  { title := "B", description := "", columnId := .todo, position := 0 }

/-- One store operation, as dispatched by the router. -/
inductive Op where
  | create (p : CreateTaskPayload)
  | update (p : UpdateTaskPayload)
  | move (p : MoveTaskPayload)
  | delete (p : DeleteTaskPayload)
  | rebalance (c : Column)
deriving DecidableEq

/-- The observable result of one store operation (`notFound` stands for
the thrown not-found error). -/
inductive OpResult where
  | created (t : Task)
  | updated (r : UpdateResult)
  | moved (r : MoveResult)
  | deleted (r : DeleteResult)
  | rebalanced (ts : List Task)
  | notFound
deriving DecidableEq

/-- Run one operation against the in-memory store implementation. -/
def memStep : Nat × Store → Op → OpResult × Nat × Store
  | (n, s), .create p =>
    let r := mem_createTask n s p
    (.created r.1, n + 1, r.2)
  | (n, s), .update p =>
    match mem_updateTask s p with
    | none => (.notFound, n, s)
    | some r => (.updated r, n, r.store)
  | (n, s), .move p =>
    match mem_moveTask s p with
    | none => (.notFound, n, s)
    | some r => (.moved r, n, r.store)
  | (n, s), .delete p =>
    let r := mem_deleteTask s p
    (.deleted r, n, r.store)
  | (n, s), .rebalance c =>
    let r := mem_rebalanceColumn s c
    (.rebalanced r.1, n, r.2)

/-- Run one operation against the SQL-backed implementation. -/
def sqlStep : Nat × Store → Op → OpResult × Nat × Store
  | (n, s), .create p =>
    let r := sql_createTask n s p
    (.created r.1, n + 1, r.2)
  | (n, s), .update p =>
    match sql_updateTask s p with
    | none => (.notFound, n, s)
    | some r => (.updated r, n, r.store)
  | (n, s), .move p =>
    match sql_moveTask s p with
    | none => (.notFound, n, s)
    | some r => (.moved r, n, r.store)
  | (n, s), .delete p =>
    let r := sql_deleteTask s p
    (.deleted r, n, r.store)
  | (n, s), .rebalance c =>
    let r := sql_rebalanceColumn s c
    (.rebalanced r.1, n, r.2)

/-- Run a sequence of operations in memory, collecting each result. -/
def runMem : Nat × Store → List Op → List OpResult × Nat × Store
  | st, [] => ([], st)
  | st, op :: ops =>
    let r := memStep st op
    let rest := runMem r.2 ops
    (r.1 :: rest.1, rest.2)

/-- Run a sequence of operations against SQL, collecting each result. -/
def runSql : Nat × Store → List Op → List OpResult × Nat × Store
  | st, [] => ([], st)
  | st, op :: ops =>
    let r := sqlStep st op
    let rest := runSql r.2 ops
    (r.1 :: rest.1, rest.2)

/-- Shorthand for building concrete task rows in examples. -/
def baseTask (taskId : Nat) (c : Column) (pos : ℚ) (v tv dv cv pv : Nat) : Task :=
  { id := taskId
    title := "Task"
    description := ""
    columnId := c
    position := pos
    version := v
    titleVersion := tv
    descriptionVersion := dv
    columnVersion := cv
    positionVersion := pv }

/-- A task whose position was rebalanced after the client's last sync:
`version = positionVersion = 2` while `columnVersion = 1`. -/
def taskPosStamped : Task := baseTask 0 .todo 65536 2 1 1 1 2

/-- A move against `taskPosStamped` from `baseVersion = 1`: the column
change merges, the position change is rejected. -/
def movePartial : MoveTaskPayload :=
  { taskId := 0, baseVersion := 1, columnId := .inprogress, position := 42 }

/-- A task all of whose fields were rewritten at version 2. -/
def taskAllStamped : Task := baseTask 3 .todo 65536 2 2 2 2 2

/-- A stale title edit against `taskAllStamped`: fully rejected. -/
def updStale : UpdateTaskPayload :=
  { taskId := 3, baseVersion := 1, changes := { title := some "mine" } }

/-- A stale move against `taskAllStamped`: fully rejected. -/
def moveStale : MoveTaskPayload :=
  { taskId := 3, baseVersion := 1, columnId := .done, position := 7 }

/-- A fresh task every edit against which merges cleanly. -/
def taskFresh : Task := baseTask 1 .todo 65536 1 1 1 1 1

/-- A clean title edit against `taskFresh`. -/
def updFresh : UpdateTaskPayload :=
  { taskId := 1, baseVersion := 1, changes := { title := some "edited" } }

/-- An update naming a task id that exists in no store used with it. -/
def updMissing : UpdateTaskPayload :=
  { taskId := 5, baseVersion := 1, changes := {} }

/-- A move naming a task id that exists in no store used with it. -/
def moveMissing : MoveTaskPayload :=
  { taskId := 9, baseVersion := 0, columnId := .done, position := 1 }

theorem mem_changeEntries (m : TaskMutation) (f : TaskField) :
    f ∈ changeEntries m ↔ (m.get f).isSome := by
  obtain ⟨t, d, c, p⟩ := m
  cases f <;> cases t <;> cases d <;> cases c <;> cases p <;>
    simp [changeEntries, TaskMutation.get]

theorem restrictMutation_get (m : TaskMutation) (fs : List TaskField) (f : TaskField) :
    (restrictMutation m fs).get f = if f ∈ fs then m.get f else none := by
  cases f <;> simp only [restrictMutation, TaskMutation.get] <;> split <;> simp

theorem mem_mergedFields (current : Task) (baseVersion : Nat) (changes : TaskMutation)
    (f : TaskField) :
    f ∈ (analyseConflict current baseVersion changes).mergedFields ↔
      ((changes.get f).isSome ∧ fieldVersion current f ≤ baseVersion) := by
  simp [analyseConflict, List.mem_filter, mem_changeEntries]

theorem mem_rejectedFields (current : Task) (baseVersion : Nat) (changes : TaskMutation)
    (f : TaskField) :
    f ∈ (analyseConflict current baseVersion changes).rejectedFields ↔
      ((changes.get f).isSome ∧ baseVersion < fieldVersion current f) := by
  simp [analyseConflict, List.mem_filter, mem_changeEntries]

/-- C1: `analyseConflict` merges a requested field exactly when its per-field
stamp is at most `baseVersion` (keeping the proposed value in
`mergedChanges`), rejects it exactly when the stamp exceeds `baseVersion`
(discarding the proposed value), and reports
`hasConflict = (rejectedFields ≠ ∅)` and
`fullyRejected = (mergedFields = ∅ ∧ rejectedFields ≠ ∅)`. -/
theorem analyseConflict_spec (current : Task) (baseVersion : Nat) (changes : TaskMutation)
    (f : TaskField) :
    (f ∈ (analyseConflict current baseVersion changes).mergedFields ↔
      ((changes.get f).isSome ∧ fieldVersion current f ≤ baseVersion)) ∧
    (f ∈ (analyseConflict current baseVersion changes).rejectedFields ↔
      ((changes.get f).isSome ∧ baseVersion < fieldVersion current f)) ∧
    ((analyseConflict current baseVersion changes).mergedChanges.get f =
      if fieldVersion current f ≤ baseVersion then changes.get f else none) ∧
    ((analyseConflict current baseVersion changes).hasConflict = true ↔
      (analyseConflict current baseVersion changes).rejectedFields ≠ []) ∧
    ((analyseConflict current baseVersion changes).fullyRejected = true ↔
      ((analyseConflict current baseVersion changes).mergedFields = [] ∧
        (analyseConflict current baseVersion changes).rejectedFields ≠ [])) := by
  refine ⟨mem_mergedFields current baseVersion changes f,
    mem_rejectedFields current baseVersion changes f, ?_, ?_, ?_⟩
  · have hres : (analyseConflict current baseVersion changes).mergedChanges =
        restrictMutation changes (analyseConflict current baseVersion changes).mergedFields :=
      rfl
    rw [hres, restrictMutation_get]
    by_cases hle : fieldVersion current f ≤ baseVersion
    · cases hget : changes.get f <;> simp [mem_mergedFields, hle, hget]
    · simp [mem_mergedFields, hle]
  · simp [analyseConflict, List.length_pos]
  · simp [analyseConflict, List.length_eq_zero, List.length_pos]

theorem mergedChanges_title (current : Task) (baseVersion : Nat) (changes : TaskMutation) :
    (analyseConflict current baseVersion changes).mergedChanges.title =
      if current.titleVersion ≤ baseVersion then changes.title else none := by
  have hdef : (analyseConflict current baseVersion changes).mergedChanges.title =
      if TaskField.title ∈ (analyseConflict current baseVersion changes).mergedFields
      then changes.title else none := rfl
  rw [hdef]
  by_cases hle : current.titleVersion ≤ baseVersion
  · cases ht : changes.title <;>
      simp [mem_mergedFields, fieldVersion, TaskMutation.get, hle, ht]
  · simp [mem_mergedFields, fieldVersion, hle]

theorem mergedChanges_description (current : Task) (baseVersion : Nat) (changes : TaskMutation) :
    (analyseConflict current baseVersion changes).mergedChanges.description =
      if current.descriptionVersion ≤ baseVersion then changes.description else none := by
  have hdef : (analyseConflict current baseVersion changes).mergedChanges.description =
      if TaskField.description ∈ (analyseConflict current baseVersion changes).mergedFields
      then changes.description else none := rfl
  rw [hdef]
  by_cases hle : current.descriptionVersion ≤ baseVersion
  · cases ht : changes.description <;>
      simp [mem_mergedFields, fieldVersion, TaskMutation.get, hle, ht]
  · simp [mem_mergedFields, fieldVersion, hle]

theorem mergedChanges_columnId (current : Task) (baseVersion : Nat) (changes : TaskMutation) :
    (analyseConflict current baseVersion changes).mergedChanges.columnId =
      if current.columnVersion ≤ baseVersion then changes.columnId else none := by
  have hdef : (analyseConflict current baseVersion changes).mergedChanges.columnId =
      if TaskField.columnId ∈ (analyseConflict current baseVersion changes).mergedFields
      then changes.columnId else none := rfl
  rw [hdef]
  by_cases hle : current.columnVersion ≤ baseVersion
  · cases ht : changes.columnId <;>
      simp [mem_mergedFields, fieldVersion, TaskMutation.get, hle, ht]
  · simp [mem_mergedFields, fieldVersion, hle]

theorem mergedChanges_position (current : Task) (baseVersion : Nat) (changes : TaskMutation) :
    (analyseConflict current baseVersion changes).mergedChanges.position =
      if current.positionVersion ≤ baseVersion then changes.position else none := by
  have hdef : (analyseConflict current baseVersion changes).mergedChanges.position =
      if TaskField.position ∈ (analyseConflict current baseVersion changes).mergedFields
      then changes.position else none := rfl
  rw [hdef]
  by_cases hle : current.positionVersion ≤ baseVersion
  · cases ht : changes.position <;>
      simp [mem_mergedFields, fieldVersion, TaskMutation.get, hle, ht]
  · simp [mem_mergedFields, fieldVersion, hle]

/-- C2: a non-fully-rejected `updateTask` stores a row whose `version` is
`current.version + 1`; every merged field takes its proposed value and its
stamp becomes the new version; every other field keeps its prior value and
prior stamp. -/
theorem updateTask_merge_spec (tasks : Store) (p : UpdateTaskPayload) (current : Task)
    (hfind : findTask tasks p.taskId = some current)
    (hrej : (analyseConflict current p.baseVersion p.changes.toMutation).fullyRejected = false) :
    ∃ r : UpdateResult, sql_updateTask tasks p = some r ∧
      r.task.version = current.version + 1 ∧
      r.store = updateRows tasks p.taskId r.task ∧
      (∀ f : TaskField,
        (f ∈ (analyseConflict current p.baseVersion p.changes.toMutation).mergedFields →
          p.changes.toMutation.get f = some (fieldValue r.task f) ∧
            fieldVersion r.task f = current.version + 1) ∧
        (f ∉ (analyseConflict current p.baseVersion p.changes.toMutation).mergedFields →
          fieldValue r.task f = fieldValue current f ∧
            fieldVersion r.task f = fieldVersion current f)) := by
  unfold sql_updateTask
  rw [hfind]
  simp only [hrej, Bool.false_eq_true, if_false, ite_false]
  refine ⟨_, rfl, rfl, rfl, ?_⟩
  intro f
  constructor
  · intro hmem
    rw [mem_mergedFields] at hmem
    obtain ⟨hsome, hle⟩ := hmem
    cases f
    · obtain ⟨v, hv⟩ := Option.isSome_iff_exists.mp (by
        simpa [TaskMutation.get, UpdateChanges.toMutation] using hsome)
      have hle' : current.titleVersion ≤ p.baseVersion := by simpa [fieldVersion] using hle
      simp [fieldValue, fieldVersion, TaskMutation.get, UpdateChanges.toMutation,
        mergedChanges_title, hle', hv]
    · obtain ⟨v, hv⟩ := Option.isSome_iff_exists.mp (by
        simpa [TaskMutation.get, UpdateChanges.toMutation] using hsome)
      have hle' : current.descriptionVersion ≤ p.baseVersion := by
        simpa [fieldVersion] using hle
      simp [fieldValue, fieldVersion, TaskMutation.get, UpdateChanges.toMutation,
        mergedChanges_description, hle', hv]
    · simp [TaskMutation.get, UpdateChanges.toMutation] at hsome
    · simp [TaskMutation.get, UpdateChanges.toMutation] at hsome
  · intro hmem
    rw [mem_mergedFields] at hmem
    push_neg at hmem
    cases f
    · by_cases hle : current.titleVersion ≤ p.baseVersion
      · have hnone : p.changes.title = none := by
          rcases ht : p.changes.title with _ | v
          · rfl
          · exfalso
            have hlt := hmem (by simp [TaskMutation.get, UpdateChanges.toMutation, ht])
            simp [fieldVersion] at hlt
            exact absurd hle (not_le.mpr hlt)
        simp [fieldValue, fieldVersion, mergedChanges_title, UpdateChanges.toMutation,
          hle, hnone]
      · simp [fieldValue, fieldVersion, mergedChanges_title, UpdateChanges.toMutation, hle]
    · by_cases hle : current.descriptionVersion ≤ p.baseVersion
      · have hnone : p.changes.description = none := by
          rcases ht : p.changes.description with _ | v
          · rfl
          · exfalso
            have hlt := hmem (by simp [TaskMutation.get, UpdateChanges.toMutation, ht])
            simp [fieldVersion] at hlt
            exact absurd hle (not_le.mpr hlt)
        simp [fieldValue, fieldVersion, mergedChanges_description, UpdateChanges.toMutation,
          hle, hnone]
      · simp [fieldValue, fieldVersion, mergedChanges_description, UpdateChanges.toMutation,
          hle]
    · simp [fieldValue, fieldVersion]
    · simp [fieldValue, fieldVersion]

/-- C2 witness: a clean title edit of a fresh task. -/
theorem updateTask_merge_spec_witness :
    findTask [taskFresh] updFresh.taskId = some taskFresh ∧
    (analyseConflict taskFresh updFresh.baseVersion
      updFresh.changes.toMutation).fullyRejected = false ∧
    (∃ r : UpdateResult, sql_updateTask [taskFresh] updFresh = some r ∧
      r.task.version = taskFresh.version + 1 ∧
      r.store = updateRows [taskFresh] updFresh.taskId r.task ∧
      (∀ f : TaskField,
        (f ∈ (analyseConflict taskFresh updFresh.baseVersion
            updFresh.changes.toMutation).mergedFields →
          updFresh.changes.toMutation.get f = some (fieldValue r.task f) ∧
            fieldVersion r.task f = taskFresh.version + 1) ∧
        (f ∉ (analyseConflict taskFresh updFresh.baseVersion
            updFresh.changes.toMutation).mergedFields →
          fieldValue r.task f = fieldValue taskFresh f ∧
            fieldVersion r.task f = fieldVersion taskFresh f))) :=
  ⟨by decide, by decide, updateTask_merge_spec [taskFresh] updFresh taskFresh
    (by decide) (by decide)⟩

/-- C3 counterexample: against `taskPosStamped` (positionVersion 2,
columnVersion 1) a move with baseVersion 1 merges only `columnId`, yet the
stored row's `positionVersion` becomes 3 (the new version) instead of
retaining the prior stamp 2. -/
theorem moveTask_stamp_counterexample :
    TaskField.columnId ∈ (analyseConflict taskPosStamped movePartial.baseVersion
      { columnId := some movePartial.columnId,
        position := some movePartial.position }).mergedFields ∧
    TaskField.position ∈ (analyseConflict taskPosStamped movePartial.baseVersion
      { columnId := some movePartial.columnId,
        position := some movePartial.position }).rejectedFields ∧
    taskPosStamped.positionVersion = 2 ∧
    (sql_moveTask [taskPosStamped] movePartial).map
        (fun r => (r.task.positionVersion, r.task.position, r.task.columnId)) =
      some (3, taskPosStamped.position, Column.inprogress) := by
  decide

/-- C3 (amended): on a non-rejected move the rejected field keeps its
current value, but its per-field stamp does not survive: `moveTask` sets
both `columnVersion` and `positionVersion` to the new version
unconditionally, and only the merged field takes its proposed value. -/
theorem moveTask_partial_merge_spec (tasks : Store) (p : MoveTaskPayload) (current : Task)
    (hfind : findTask tasks p.taskId = some current)
    (hrej : (analyseConflict current p.baseVersion
      { columnId := some p.columnId, position := some p.position }).fullyRejected = false) :
    ∃ r : MoveResult, sql_moveTask tasks p = some r ∧
      r.task.version = current.version + 1 ∧
      r.task.columnVersion = current.version + 1 ∧
      r.task.positionVersion = current.version + 1 ∧
      r.task.columnId =
        (if current.columnVersion ≤ p.baseVersion then p.columnId else current.columnId) ∧
      r.task.position =
        (if current.positionVersion ≤ p.baseVersion then p.position else current.position) ∧
      r.task.title = current.title ∧
      r.task.titleVersion = current.titleVersion ∧
      r.task.description = current.description ∧
      r.task.descriptionVersion = current.descriptionVersion := by
  unfold sql_moveTask
  rw [hfind]
  simp only [hrej, Bool.false_eq_true, if_false, ite_false]
  refine ⟨_, rfl, rfl, rfl, rfl, ?_, ?_, rfl, rfl, rfl, rfl⟩
  · by_cases hc : current.columnVersion ≤ p.baseVersion <;>
      simp [mergedChanges_columnId, hc]
  · by_cases hp2 : current.positionVersion ≤ p.baseVersion <;>
      simp [mergedChanges_position, hp2]

/-- C3 witness: the partial move merge against `taskPosStamped`. -/
theorem moveTask_partial_merge_spec_witness :
    findTask [taskPosStamped] movePartial.taskId = some taskPosStamped ∧
    (analyseConflict taskPosStamped movePartial.baseVersion
      { columnId := some movePartial.columnId,
        position := some movePartial.position }).fullyRejected = false ∧
    (∃ r : MoveResult, sql_moveTask [taskPosStamped] movePartial = some r ∧
      r.task.version = taskPosStamped.version + 1 ∧
      r.task.columnVersion = taskPosStamped.version + 1 ∧
      r.task.positionVersion = taskPosStamped.version + 1 ∧
      r.task.columnId = (if taskPosStamped.columnVersion ≤ movePartial.baseVersion
        then movePartial.columnId else taskPosStamped.columnId) ∧
      r.task.position = (if taskPosStamped.positionVersion ≤ movePartial.baseVersion
        then movePartial.position else taskPosStamped.position) ∧
      r.task.title = taskPosStamped.title ∧
      r.task.titleVersion = taskPosStamped.titleVersion ∧
      r.task.description = taskPosStamped.description ∧
      r.task.descriptionVersion = taskPosStamped.descriptionVersion) :=
  ⟨by decide, by decide, moveTask_partial_merge_spec [taskPosStamped] movePartial taskPosStamped
    (by decide) (by decide)⟩

/-- C4: a fully rejected `updateTask` or `moveTask` performs no write (the
store is returned unchanged) and returns the current task with a REJECTED
conflict payload listing the rejected fields. -/
theorem fullyRejected_no_write (tasks : Store) (pu : UpdateTaskPayload) (pm : MoveTaskPayload)
    (cu cm : Task)
    (hfu : findTask tasks pu.taskId = some cu)
    (hru : (analyseConflict cu pu.baseVersion pu.changes.toMutation).fullyRejected = true)
    (hfm : findTask tasks pm.taskId = some cm)
    (hrm : (analyseConflict cm pm.baseVersion
      { columnId := some pm.columnId, position := some pm.position }).fullyRejected = true) :
    sql_updateTask tasks pu = some
      { task := cu
        conflict := some (rejectedPayload cu
          (analyseConflict cu pu.baseVersion pu.changes.toMutation))
        store := tasks } ∧
    sql_moveTask tasks pm = some
      { task := cm
        conflict := some (rejectedPayload cm (analyseConflict cm pm.baseVersion
          { columnId := some pm.columnId, position := some pm.position }))
        needsRebalance := false
        store := tasks } ∧
    (rejectedPayload cu (analyseConflict cu pu.baseVersion pu.changes.toMutation)).resolution =
      Resolution.rejected ∧
    (rejectedPayload cu (analyseConflict cu pu.baseVersion
      pu.changes.toMutation)).rejectedFields =
      (analyseConflict cu pu.baseVersion pu.changes.toMutation).rejectedFields ∧
    (rejectedPayload cm (analyseConflict cm pm.baseVersion
      { columnId := some pm.columnId, position := some pm.position })).resolution =
      Resolution.rejected ∧
    (rejectedPayload cm (analyseConflict cm pm.baseVersion
      { columnId := some pm.columnId, position := some pm.position })).rejectedFields =
      (analyseConflict cm pm.baseVersion
        { columnId := some pm.columnId, position := some pm.position }).rejectedFields := by
  refine ⟨?_, ?_, rfl, rfl, rfl, rfl⟩
  · unfold sql_updateTask
    rw [hfu]
    simp [hru]
  · unfold sql_moveTask
    rw [hfm]
    simp [hrm]

/-- C4 witness: a stale edit and a stale move against `taskAllStamped`. -/
theorem fullyRejected_no_write_witness :
    findTask [taskAllStamped] updStale.taskId = some taskAllStamped ∧
    (analyseConflict taskAllStamped updStale.baseVersion
      updStale.changes.toMutation).fullyRejected = true ∧
    findTask [taskAllStamped] moveStale.taskId = some taskAllStamped ∧
    (analyseConflict taskAllStamped moveStale.baseVersion
      { columnId := some moveStale.columnId,
        position := some moveStale.position }).fullyRejected = true ∧
    sql_updateTask [taskAllStamped] updStale = some
      { task := taskAllStamped
        conflict := some (rejectedPayload taskAllStamped
          (analyseConflict taskAllStamped updStale.baseVersion updStale.changes.toMutation))
        store := [taskAllStamped] } :=
  ⟨by decide, by decide, by decide, by decide,
    (fullyRejected_no_write [taskAllStamped] updStale moveStale taskAllStamped taskAllStamped
      (by decide) (by decide) (by decide) (by decide)).1⟩

theorem broadcast_none (conns : List ClientId) (msg : ServerMessage) :
    broadcast conns msg none = conns.map (fun c => (c, msg)) := by
  unfold broadcast
  have hall : (fun c => !(some c == (none : Option ClientId))) = fun _ : ClientId => true := by
    funext c
    rfl
  rw [hall, List.filter_true]

/-- C5 counterexample: UPDATE_TASK / MOVE_TASK for a missing task id answer
the sender with code INTERNAL_ERROR (the thrown not-found error caught by
the router), not with code NOT_FOUND, and carry no `taskId` field. -/
theorem notFound_error_code_counterexample :
    handleUpdateTaskMsg [0, 1] [] 0 updMissing =
      { sends := [(0, ServerMessage.error "INTERNAL_ERROR" (notFoundMessage 5) none)]
        store := [] } ∧
    notFoundMessage 5 = "Task 5 not found" ∧
    handleMoveTaskMsg [0, 1] [] 0 moveMissing =
      { sends := [(0, ServerMessage.error "INTERNAL_ERROR" (notFoundMessage 9) none)]
        store := [] } := by
  decide

/-- C5 (amended): for a missing task id, UPDATE_TASK / MOVE_TASK answer
only the sender with `ERROR { code: INTERNAL_ERROR, message: "Task <id>
not found" }` (no `taskId` field; NOT_FOUND is used only by DELETE_TASK),
broadcast nothing to other clients, and leave the store unchanged. -/
theorem notFound_routing (conns : List ClientId) (tasks : Store) (sender : ClientId)
    (pu : UpdateTaskPayload) (pm : MoveTaskPayload)
    (hu : findTask tasks pu.taskId = none) (hm : findTask tasks pm.taskId = none) :
    handleUpdateTaskMsg conns tasks sender pu =
      { sends := sendTo conns sender
          (.error "INTERNAL_ERROR" (notFoundMessage pu.taskId) none)
        store := tasks } ∧
    handleMoveTaskMsg conns tasks sender pm =
      { sends := sendTo conns sender
          (.error "INTERNAL_ERROR" (notFoundMessage pm.taskId) none)
        store := tasks } ∧
    (∀ x ∈ (handleUpdateTaskMsg conns tasks sender pu).sends, x.1 = sender) ∧
    (∀ x ∈ (handleMoveTaskMsg conns tasks sender pm).sends, x.1 = sender) := by
  have hu' : sql_updateTask tasks pu = none := by
    unfold sql_updateTask
    rw [hu]
  have hm' : sql_moveTask tasks pm = none := by
    unfold sql_moveTask
    rw [hm]
  refine ⟨by simp only [handleUpdateTaskMsg, hu'], by simp only [handleMoveTaskMsg, hm'],
    ?_, ?_⟩
  · intro x hx
    simp only [handleUpdateTaskMsg, hu', sendTo] at hx
    split at hx <;> simp_all
  · intro x hx
    simp only [handleMoveTaskMsg, hm', sendTo] at hx
    split at hx <;> simp_all

/-- C5 witness: the missing-id payloads against the empty store. -/
theorem notFound_routing_witness :
    findTask ([] : Store) updMissing.taskId = none ∧
    findTask ([] : Store) moveMissing.taskId = none ∧
    (handleUpdateTaskMsg [0, 1] [] 0 updMissing =
      { sends := sendTo [0, 1] 0
          (.error "INTERNAL_ERROR" (notFoundMessage updMissing.taskId) none)
        store := [] } ∧
    handleMoveTaskMsg [0, 1] [] 0 moveMissing =
      { sends := sendTo [0, 1] 0
          (.error "INTERNAL_ERROR" (notFoundMessage moveMissing.taskId) none)
        store := [] } ∧
    (∀ x ∈ (handleUpdateTaskMsg [0, 1] [] 0 updMissing).sends, x.1 = 0) ∧
    (∀ x ∈ (handleMoveTaskMsg [0, 1] [] 0 moveMissing).sends, x.1 = 0)) :=
  ⟨rfl, rfl, notFound_routing [0, 1] [] 0 updMissing moveMissing rfl rfl⟩

/-- C6 counterexample: on a fully rejected UPDATE_TASK (resp. MOVE_TASK)
the router's broadcast of the unchanged task also reaches the sender
(client 7), contradicting "to every connected client except the sender". -/
theorem rejected_broadcast_counterexample :
    (analyseConflict taskAllStamped updStale.baseVersion
      updStale.changes.toMutation).fullyRejected = true ∧
    (7, ServerMessage.taskUpdated taskAllStamped) ∈
      (handleUpdateTaskMsg [7, 8] [taskAllStamped] 7 updStale).sends ∧
    (7, ServerMessage.taskMoved taskAllStamped) ∈
      (handleMoveTaskMsg [7, 8] [taskAllStamped] 7 moveStale).sends := by
  decide

/-- C6 (amended): on a fully rejected UPDATE_TASK / MOVE_TASK the router
sends CONFLICT_RESOLVED (resolution REJECTED) to the sender and broadcasts
TASK_UPDATED / TASK_MOVED with the unchanged current task to every
connected client including the sender. -/
theorem rejected_broadcast_spec (conns : List ClientId) (tasks : Store) (sender : ClientId)
    (pu : UpdateTaskPayload) (pm : MoveTaskPayload) (cu cm : Task)
    (hfu : findTask tasks pu.taskId = some cu)
    (hru : (analyseConflict cu pu.baseVersion pu.changes.toMutation).fullyRejected = true)
    (hfm : findTask tasks pm.taskId = some cm)
    (hrm : (analyseConflict cm pm.baseVersion
      { columnId := some pm.columnId, position := some pm.position }).fullyRejected = true) :
    handleUpdateTaskMsg conns tasks sender pu =
      { sends := sendTo conns sender (.conflictResolved (rejectedPayload cu
          (analyseConflict cu pu.baseVersion pu.changes.toMutation))) ++
          conns.map (fun c => (c, ServerMessage.taskUpdated cu))
        store := tasks } ∧
    handleMoveTaskMsg conns tasks sender pm =
      { sends := sendTo conns sender (.conflictResolved (rejectedPayload cm
          (analyseConflict cm pm.baseVersion
            { columnId := some pm.columnId, position := some pm.position }))) ++
          conns.map (fun c => (c, ServerMessage.taskMoved cm))
        store := tasks } ∧
    (∀ c ∈ conns,
      (c, ServerMessage.taskUpdated cu) ∈ (handleUpdateTaskMsg conns tasks sender pu).sends) ∧
    (∀ c ∈ conns,
      (c, ServerMessage.taskMoved cm) ∈ (handleMoveTaskMsg conns tasks sender pm).sends) := by
  have hu' : sql_updateTask tasks pu = some
      { task := cu
        conflict := some (rejectedPayload cu
          (analyseConflict cu pu.baseVersion pu.changes.toMutation))
        store := tasks } := by
    unfold sql_updateTask
    rw [hfu]
    simp [hru]
  have hm' : sql_moveTask tasks pm = some
      { task := cm
        conflict := some (rejectedPayload cm (analyseConflict cm pm.baseVersion
          { columnId := some pm.columnId, position := some pm.position }))
        needsRebalance := false
        store := tasks } := by
    unfold sql_moveTask
    rw [hfm]
    simp [hrm]
  have hupd : handleUpdateTaskMsg conns tasks sender pu =
      { sends := sendTo conns sender (.conflictResolved (rejectedPayload cu
          (analyseConflict cu pu.baseVersion pu.changes.toMutation))) ++
          conns.map (fun c => (c, ServerMessage.taskUpdated cu))
        store := tasks } := by
    simp only [handleUpdateTaskMsg, hu', rejectedPayload, broadcast_none,
      beq_self_eq_true, if_true]
  have hmov : handleMoveTaskMsg conns tasks sender pm =
      { sends := sendTo conns sender (.conflictResolved (rejectedPayload cm
          (analyseConflict cm pm.baseVersion
            { columnId := some pm.columnId, position := some pm.position }))) ++
          conns.map (fun c => (c, ServerMessage.taskMoved cm))
        store := tasks } := by
    simp only [handleMoveTaskMsg, hm', rejectedPayload, broadcast_none,
      beq_self_eq_true, if_true]
  refine ⟨hupd, hmov, ?_, ?_⟩
  · intro c hc
    rw [hupd]
    exact List.mem_append_right _ (List.mem_map.mpr ⟨c, hc, rfl⟩)
  · intro c hc
    rw [hmov]
    exact List.mem_append_right _ (List.mem_map.mpr ⟨c, hc, rfl⟩)

/-- C6 witness: the stale edit and stale move against `taskAllStamped`,
with clients 7 (sender) and 8 connected. -/
theorem rejected_broadcast_spec_witness :
    findTask [taskAllStamped] updStale.taskId = some taskAllStamped ∧
    (analyseConflict taskAllStamped updStale.baseVersion
      updStale.changes.toMutation).fullyRejected = true ∧
    findTask [taskAllStamped] moveStale.taskId = some taskAllStamped ∧
    (analyseConflict taskAllStamped moveStale.baseVersion
      { columnId := some moveStale.columnId,
        position := some moveStale.position }).fullyRejected = true ∧
    (∀ c ∈ [7, 8],
      (c, ServerMessage.taskUpdated taskAllStamped) ∈
        (handleUpdateTaskMsg [7, 8] [taskAllStamped] 7 updStale).sends) :=
  ⟨by decide, by decide, by decide, by decide,
    (rejected_broadcast_spec [7, 8] [taskAllStamped] 7 updStale moveStale
      taskAllStamped taskAllStamped (by decide) (by decide) (by decide) (by decide)).2.2.1⟩

theorem rebalanceGo_fst_length :
    ∀ (c : List Task) (i : Nat) (tasks : Store),
      (rebalanceGo c i tasks).1.length = c.length := by
  intro c
  induction c with
  | nil => intro i tasks; simp [rebalanceGo]
  | cons t rest ih => intro i tasks; simp [rebalanceGo, ih]

theorem rebalanceGo_fst_get :
    ∀ (c : List Task) (i j : Nat) (tasks : Store),
      (rebalanceGo c i tasks).1.get? j =
        (c.get? j).map (fun t => rebalTransform (i + j) t) := by
  intro c
  induction c with
  | nil => intro i j tasks; simp [rebalanceGo]
  | cons t rest ih =>
    intro i j tasks
    cases j with
    | zero => simp [rebalanceGo]
    | succ j =>
      have harith : i + 1 + j = i + (j + 1) := by omega
      simp only [rebalanceGo, List.get?_cons_succ]
      rw [ih (i + 1) j _, harith]

theorem rebalanceGo_fst_mem_pos :
    ∀ (c : List Task) (i : Nat) (tasks : Store) (u : Task),
      u ∈ (rebalanceGo c i tasks).1 →
        ∃ k, i ≤ k ∧ u.position = ((k : ℚ) + 1) * INITIAL_STEP := by
  intro c
  induction c with
  | nil => intro i tasks u hu; simp [rebalanceGo] at hu
  | cons t rest ih =>
    intro i tasks u hu
    simp only [rebalanceGo, List.mem_cons] at hu
    rcases hu with hu | hu
    · exact ⟨i, le_refl i, by rw [hu]; rfl⟩
    · obtain ⟨k, hk, hpos⟩ := ih (i + 1) _ u hu
      exact ⟨k, by omega, hpos⟩

theorem rebalanceGo_fst_pairwise :
    ∀ (c : List Task) (i : Nat) (tasks : Store),
      (rebalanceGo c i tasks).1.Pairwise (fun a b => a.position < b.position) := by
  intro c
  induction c with
  | nil => intro i tasks; simp [rebalanceGo]
  | cons t rest ih =>
    intro i tasks
    simp only [rebalanceGo]
    refine List.Pairwise.cons ?_ (ih (i + 1) _)
    intro u hu
    obtain ⟨k, hk, hpos⟩ := rebalanceGo_fst_mem_pos rest (i + 1) _ u hu
    have hstep : (0 : ℚ) < INITIAL_STEP := by norm_num [INITIAL_STEP]
    have hlt : ((i : ℚ) + 1) < ((k : ℚ) + 1) := by
      have : (i : ℚ) < (k : ℚ) := by exact_mod_cast (by omega : i < k)
      linarith
    show (rebalTransform i t).position < u.position
    rw [hpos]
    calc (rebalTransform i t).position = ((i : ℚ) + 1) * INITIAL_STEP := rfl
      _ < ((k : ℚ) + 1) * INITIAL_STEP := by
          exact mul_lt_mul_of_pos_right hlt hstep

/-- C7: `rebalanceColumn` gives the `i`-th task of the column in
pre-rebalance position order the position `(i+1)·STEP`, advances its
`version` by one, sets its `positionVersion` to the new version, leaves
every other field and stamp unchanged, and returns the updated rows in the
new (strictly increasing) order. -/
theorem rebalanceColumn_spec (tasks : Store) (c : Column) :
    (∀ j : Nat, (mem_rebalanceColumn tasks c).1.get? j =
      ((columnTasksSorted tasks c).get? j).map (fun t => rebalTransform j t)) ∧
    (mem_rebalanceColumn tasks c).1.Pairwise (fun a b => a.position < b.position) ∧
    (∀ (j : Nat) (t : Task), (columnTasksSorted tasks c).get? j = some t →
      (mem_rebalanceColumn tasks c).1.get? j = some
        { t with
            position := ((j : ℚ) + 1) * INITIAL_STEP
            version := t.version + 1
            positionVersion := t.version + 1 }) := by
  have hget : ∀ j : Nat, (mem_rebalanceColumn tasks c).1.get? j =
      ((columnTasksSorted tasks c).get? j).map (fun t => rebalTransform j t) := by
    intro j
    have h := rebalanceGo_fst_get (columnTasksSorted tasks c) 0 j tasks
    simpa [mem_rebalanceColumn] using h
  refine ⟨hget, rebalanceGo_fst_pairwise _ 0 tasks, ?_⟩
  intro j t ht
  rw [hget j, ht]
  rfl

/-- C7 witness: the first row of a rebalanced singleton column. -/
theorem rebalanceColumn_spec_witness :
    (mem_rebalanceColumn [taskFresh] Column.todo).1.get? 0 =
      ((columnTasksSorted [taskFresh] Column.todo).get? 0).map
        (fun t => rebalTransform 0 t) :=
  (rebalanceColumn_spec [taskFresh] Column.todo).1 0

theorem findTask_mem {s : Store} {taskId : Nat} {u : Task}
    (h : findTask s taskId = some u) : u ∈ s :=
  List.mem_of_find?_eq_some h

theorem findTask_id {s : Store} {taskId : Nat} {u : Task}
    (h : findTask s taskId = some u) : u.id = taskId := by
  have hp := List.find?_some h
  simpa using hp

theorem map_id_of_eq {α : Type} {f : α → α} :
    ∀ l : List α, (∀ u ∈ l, f u = u) → l.map f = l := by
  intro l
  induction l with
  | nil => intro; rfl
  | cons a l ih =>
    intro h
    simp only [List.map_cons, h a (List.mem_cons_self a l),
      ih (fun u hu => h u (List.mem_cons_of_mem a hu))]

theorem mem_replaceFirst :
    ∀ (s : Store) (taskId : Nat) (t' u : Task),
      u ∈ replaceFirst s taskId t' → u ∈ s ∨ u = t' := by
  intro s taskId t'
  induction s with
  | nil => intro u hu; simp [replaceFirst] at hu
  | cons h rest ih =>
    intro u hu
    simp only [replaceFirst] at hu
    split at hu
    · rcases List.mem_cons.mp hu with rfl | hu2
      · right; rfl
      · left; exact List.mem_cons_of_mem _ hu2
    · rcases List.mem_cons.mp hu with rfl | hu2
      · left; exact List.mem_cons_self _ _
      · rcases ih u hu2 with h1 | h1
        · left; exact List.mem_cons_of_mem _ h1
        · right; exact h1

theorem replaceFirst_map_id :
    ∀ (s : Store) (taskId : Nat) (t' : Task), t'.id = taskId →
      (replaceFirst s taskId t').map Task.id = s.map Task.id := by
  intro s taskId t' hid
  induction s with
  | nil => rfl
  | cons h rest ih =>
    simp only [replaceFirst]
    split
    · rename_i hb
      simp only [List.map_cons, hid]
      rw [show h.id = taskId from by simpa using hb]
    · simp only [List.map_cons, ih]

theorem replaceFirst_eq_updateRows :
    ∀ (s : Store) (taskId : Nat) (t' : Task), (s.map Task.id).Nodup →
      replaceFirst s taskId t' = updateRows s taskId t' := by
  intro s taskId t'
  induction s with
  | nil => intro; rfl
  | cons h rest ih =>
    intro hnd
    have hnd2 : h.id ∉ rest.map Task.id ∧ (rest.map Task.id).Nodup := by
      rw [List.map_cons, List.nodup_cons] at hnd
      exact hnd
    simp only [replaceFirst, updateRows, List.map_cons]
    split
    · rename_i hb
      have hh : h.id = taskId := by simpa using hb
      have hrest : rest.map (fun t => if t.id == taskId then t' else t) = rest := by
        apply map_id_of_eq
        intro u hu
        have hne : u.id ≠ taskId := by
          intro he
          exact hnd2.1 (by
            rw [hh, ← he]
            exact List.mem_map_of_mem Task.id hu)
        simp [hne]
      rw [hrest]
    · rename_i hb
      rw [ih hnd2.2]
      rfl

theorem updateRows_map_id (s : Store) (taskId : Nat) (t' : Task) (hid : t'.id = taskId) :
    (updateRows s taskId t').map Task.id = s.map Task.id := by
  unfold updateRows
  rw [List.map_map]
  apply List.map_congr_left
  intro u _
  by_cases hb : u.id = taskId
  · simp [Function.comp, hb, hid]
  · simp [Function.comp, hb]

theorem removeFirst_sublist : ∀ (s : Store) (taskId : Nat),
    (removeFirst s taskId).Sublist s := by
  intro s taskId
  induction s with
  | nil => simp [removeFirst]
  | cons h rest ih =>
    simp only [removeFirst]
    split
    · exact List.sublist_cons_self h rest
    · exact ih.cons₂ h

theorem removeFirst_eq_deleteRows :
    ∀ (s : Store) (taskId : Nat), (s.map Task.id).Nodup →
      removeFirst s taskId = deleteRows s taskId := by
  intro s taskId
  induction s with
  | nil => intro; rfl
  | cons h rest ih =>
    intro hnd
    have hnd2 : h.id ∉ rest.map Task.id ∧ (rest.map Task.id).Nodup := by
      rw [List.map_cons, List.nodup_cons] at hnd
      exact hnd
    simp only [removeFirst, deleteRows, List.filter]
    split
    · rename_i hb
      have hh : h.id = taskId := by simpa using hb
      have : rest.filter (fun t => !(t.id == taskId)) = rest := by
        rw [List.filter_eq_self]
        intro u hu
        have hne : u.id ≠ taskId := by
          intro he
          exact hnd2.1 (by
            rw [hh, ← he]
            exact List.mem_map_of_mem Task.id hu)
        simpa using hne
      simp only [hb, Bool.not_true, this]
    · rename_i hb
      have : (h.id == taskId) = false := by
        cases hbe : (h.id == taskId)
        · rfl
        · exact absurd hbe hb
      simp only [this, Bool.not_false]
      rw [ih hnd2.2]
      rfl

theorem findTask_eq_filter_head :
    ∀ (s : Store) (taskId : Nat),
      findTask s taskId = (s.filter (fun t => t.id == taskId)).head? := by
  intro s taskId
  induction s with
  | nil => rfl
  | cons h rest ih =>
    simp only [findTask, List.find?, List.filter]
    cases hb : (h.id == taskId)
    · exact ih
    · rfl

theorem bumpStamp_id (v : Nat) (t : Task) (f : TaskField) : (bumpStamp v t f).id = t.id := by
  cases f <;> rfl

theorem bumpStamp_columnId (v : Nat) (t : Task) (f : TaskField) :
    (bumpStamp v t f).columnId = t.columnId := by
  cases f <;> rfl

theorem bumpStamp_position (v : Nat) (t : Task) (f : TaskField) :
    (bumpStamp v t f).position = t.position := by
  cases f <;> rfl

theorem foldl_bumpStamp_id :
    ∀ (fs : List TaskField) (v : Nat) (t : Task), (fs.foldl (bumpStamp v) t).id = t.id := by
  intro fs
  induction fs with
  | nil => intro v t; rfl
  | cons f fs ih => intro v t; rw [List.foldl_cons, ih, bumpStamp_id]

theorem foldl_bumpStamp_columnId :
    ∀ (fs : List TaskField) (v : Nat) (t : Task),
      (fs.foldl (bumpStamp v) t).columnId = t.columnId := by
  intro fs
  induction fs with
  | nil => intro v t; rfl
  | cons f fs ih => intro v t; rw [List.foldl_cons, ih, bumpStamp_columnId]

theorem foldl_bumpStamp_position :
    ∀ (fs : List TaskField) (v : Nat) (t : Task),
      (fs.foldl (bumpStamp v) t).position = t.position := by
  intro fs
  induction fs with
  | nil => intro v t; rfl
  | cons f fs ih => intro v t; rw [List.foldl_cons, ih, bumpStamp_position]

theorem bumpVersion_id (t : Task) (fs : List TaskField) : (bumpVersion t fs).id = t.id := by
  unfold bumpVersion
  rw [foldl_bumpStamp_id]

theorem bumpVersion_columnId (t : Task) (fs : List TaskField) :
    (bumpVersion t fs).columnId = t.columnId := by
  unfold bumpVersion
  rw [foldl_bumpStamp_columnId]

theorem bumpVersion_position (t : Task) (fs : List TaskField) :
    (bumpVersion t fs).position = t.position := by
  unfold bumpVersion
  rw [foldl_bumpStamp_position]

theorem update_mergedChanges_columnId (current : Task) (base : Nat) (c : UpdateChanges) :
    (analyseConflict current base c.toMutation).mergedChanges.columnId = none := by
  rw [mergedChanges_columnId]
  simp [UpdateChanges.toMutation]

theorem update_mergedChanges_position (current : Task) (base : Nat) (c : UpdateChanges) :
    (analyseConflict current base c.toMutation).mergedChanges.position = none := by
  rw [mergedChanges_position]
  simp [UpdateChanges.toMutation]

theorem le_foldl_max : ∀ (qs : List ℚ) (q : ℚ), q ≤ qs.foldl max q := by
  intro qs
  induction qs with
  | nil => intro q; exact le_refl q
  | cons x xs ih =>
    intro q
    rw [List.foldl_cons]
    exact le_trans (le_max_left q x) (ih (max q x))

theorem mem_le_foldl_max : ∀ (qs : List ℚ) (q x : ℚ), x ∈ qs → x ≤ qs.foldl max q := by
  intro qs
  induction qs with
  | nil => intro q x hx; simp at hx
  | cons y ys ih =>
    intro q x hx
    rw [List.foldl_cons]
    rcases List.mem_cons.mp hx with rfl | hx2
    · exact le_trans (le_max_right q x) (le_foldl_max ys (max q x))
    · exact ih (max q y) x hx2

theorem applyRebal_id : ∀ (c : List Task) (i : Nat) (u : Task),
    (applyRebal c i u).id = u.id := by
  intro c
  induction c with
  | nil => intro i u; rfl
  | cons t rest ih =>
    intro i u
    simp only [applyRebal]
    split
    · rename_i hb
      have : u.id = t.id := by simpa using hb
      rw [show (rebalTransform i t).id = t.id from rfl, this]
    · exact ih (i + 1) u

theorem applyRebal_not_mem : ∀ (c : List Task) (i : Nat) (u : Task),
    u.id ∉ c.map Task.id → applyRebal c i u = u := by
  intro c
  induction c with
  | nil => intro i u _; rfl
  | cons t rest ih =>
    intro i u hu
    rw [List.map_cons, List.mem_cons] at hu
    push_neg at hu
    simp only [applyRebal]
    rw [if_neg (by simpa using hu.1)]
    exact ih (i + 1) u hu.2

theorem applyRebal_cases : ∀ (c : List Task) (i : Nat) (u : Task),
    (u.id ∉ c.map Task.id ∧ applyRebal c i u = u) ∨
    (∃ (j : Nat) (t : Task), c.get? j = some t ∧ u.id = t.id ∧
      applyRebal c i u = rebalTransform (i + j) t) := by
  intro c
  induction c with
  | nil => intro i u; left; simp [applyRebal]
  | cons t rest ih =>
    intro i u
    by_cases hb : u.id = t.id
    · right
      exact ⟨0, t, rfl, hb, by simp [applyRebal, hb]⟩
    · rcases ih (i + 1) u with ⟨hnm, he⟩ | ⟨j, t2, hg, hid, he⟩
      · left
        constructor
        · rw [List.map_cons, List.mem_cons]
          push_neg
          exact ⟨hb, hnm⟩
        · simp only [applyRebal]
          rw [if_neg (by simpa using hb)]
          exact he
      · right
        refine ⟨j + 1, t2, by simpa using hg, hid, ?_⟩
        simp only [applyRebal]
        rw [if_neg (by simpa using hb), he]
        congr 1
        omega

theorem rebalanceGo_snd_eq : ∀ (c : List Task) (i : Nat) (s : Store),
    (s.map Task.id).Nodup → (c.map Task.id).Nodup →
    (rebalanceGo c i s).2 = s.map (applyRebal c i) := by
  intro c
  induction c with
  | nil =>
    intro i s _ _
    rw [show (rebalanceGo [] i s).2 = s from rfl]
    exact (map_id_of_eq s (fun u _ => rfl)).symm
  | cons t rest ih =>
    intro i s hs hc
    have hc2 : t.id ∉ rest.map Task.id ∧ (rest.map Task.id).Nodup := by
      rw [List.map_cons, List.nodup_cons] at hc
      exact hc
    show (rebalanceGo rest (i + 1) (replaceFirst s t.id (rebalTransform i t))).2 =
      s.map (applyRebal (t :: rest) i)
    rw [replaceFirst_eq_updateRows _ _ _ hs]
    have hs' : ((updateRows s t.id (rebalTransform i t)).map Task.id).Nodup := by
      rw [updateRows_map_id s t.id (rebalTransform i t) rfl]
      exact hs
    rw [ih (i + 1) _ hs' hc2.2]
    show (s.map (fun u => if u.id == t.id then rebalTransform i t else u)).map
      (applyRebal rest (i + 1)) = s.map (applyRebal (t :: rest) i)
    rw [List.map_map]
    apply List.map_congr_left
    intro u _
    show applyRebal rest (i + 1) (if u.id == t.id then rebalTransform i t else u) =
      applyRebal (t :: rest) i u
    by_cases hb : u.id = t.id
    · rw [if_pos (by simpa using hb)]
      rw [applyRebal_not_mem rest (i + 1) (rebalTransform i t) (by
        rw [show (rebalTransform i t).id = t.id from rfl]
        exact hc2.1)]
      simp [applyRebal, hb]
    · rw [if_neg (by simpa using hb)]
      simp only [applyRebal]
      rw [if_neg (by simpa using hb)]

theorem rebalanceGo_snd_map_id : ∀ (c : List Task) (i : Nat) (s : Store),
    (rebalanceGo c i s).2.map Task.id = s.map Task.id := by
  intro c
  induction c with
  | nil => intro i s; rfl
  | cons t rest ih =>
    intro i s
    show (rebalanceGo rest (i + 1) (replaceFirst s t.id (rebalTransform i t))).2.map Task.id =
      s.map Task.id
    rw [ih, replaceFirst_map_id s t.id (rebalTransform i t) rfl]

theorem mem_columnTasksSorted {s : Store} {c : Column} {t : Task} :
    t ∈ columnTasksSorted s c ↔ (t ∈ s ∧ t.columnId = c) := by
  unfold columnTasksSorted
  rw [(List.perm_insertionSort posLe _).mem_iff, List.mem_filter]
  simp

theorem columnTasksSorted_map_id_nodup {s : Store} {c : Column}
    (hnd : (s.map Task.id).Nodup) : ((columnTasksSorted s c).map Task.id).Nodup := by
  have hperm : ((columnTasksSorted s c).map Task.id).Perm
      ((s.filter (fun t => t.columnId == c)).map Task.id) :=
    (List.perm_insertionSort posLe _).map Task.id
  rw [hperm.nodup_iff]
  exact ((List.filter_sublist s).map Task.id).nodup hnd

theorem rebalTransform_pos (i : Nat) (t : Task) : 0 < (rebalTransform i t).position := by
  show 0 < ((i : ℚ) + 1) * INITIAL_STEP
  have h1 : (0 : ℚ) < (i : ℚ) + 1 := by positivity
  have h2 : (0 : ℚ) < INITIAL_STEP := by norm_num [INITIAL_STEP]
  exact mul_pos h1 h2

theorem replaceFirst_pairwise {R : Task → Task → Prop}
    (hsymm : ∀ a b, R a b → R b a) :
    ∀ (s : Store) (taskId : Nat) (t' : Task),
      (s.map Task.id).Nodup →
      (∀ a ∈ s, a.id ≠ taskId → R a t') →
      s.Pairwise R → (replaceFirst s taskId t').Pairwise R := by
  intro s
  induction s with
  | nil => intro taskId t' _ _ _; simp [replaceFirst]
  | cons h rest ih =>
    intro taskId t' hnd hnew hpw
    have hnd2 : h.id ∉ rest.map Task.id ∧ (rest.map Task.id).Nodup := by
      rw [List.map_cons, List.nodup_cons] at hnd
      exact hnd
    rw [List.pairwise_cons] at hpw
    simp only [replaceFirst]
    split
    · rename_i hb
      have hh : h.id = taskId := by simpa using hb
      refine List.Pairwise.cons ?_ hpw.2
      intro b hb2
      have hbid : b.id ≠ taskId := by
        intro he
        exact hnd2.1 (by
          rw [hh, ← he]
          exact List.mem_map_of_mem Task.id hb2)
      exact hsymm _ _ (hnew b (List.mem_cons_of_mem h hb2) hbid)
    · rename_i hb
      have hh : h.id ≠ taskId := by simpa using hb
      refine List.Pairwise.cons ?_
        (ih taskId t' hnd2.2 (fun a ha hne => hnew a (List.mem_cons_of_mem h ha) hne) hpw.2)
      intro b hb2
      rcases mem_replaceFirst rest taskId t' b hb2 with hmem | rfl
      · exact hpw.1 b hmem
      · exact hnew h (List.mem_cons_self h rest) hh

theorem replaceFirst_positions (s : Store) (taskId : Nat) (t' : Task)
    (hpos : PositionsPositive s) (ht' : 0 < t'.position) :
    PositionsPositive (replaceFirst s taskId t') := by
  intro u hu
  rcases mem_replaceFirst s taskId t' u hu with hmem | rfl
  · exact hpos u hmem
  · exact ht'

theorem mem_positionAtEnd_pos (tasks : Store) (c : Column)
    (hpos : PositionsPositive tasks) : 0 < mem_positionAtEnd tasks c := by
  unfold mem_positionAtEnd
  cases hps : (tasks.filter (fun t => t.columnId == c)).map Task.position with
  | nil =>
    show (0 : ℚ) < INITIAL_STEP
    norm_num [INITIAL_STEP]
  | cons q qs =>
    show 0 < qs.foldl max q + INITIAL_STEP
    have hq : q ∈ (tasks.filter (fun t => t.columnId == c)).map Task.position := by
      rw [hps]; exact List.mem_cons_self q qs
    obtain ⟨t, ht, hqt⟩ := List.mem_map.mp hq
    have h0 : 0 < q := by
      rw [← hqt]
      exact hpos t (List.mem_of_mem_filter ht)
    have hle : q ≤ qs.foldl max q := le_foldl_max qs q
    have hstep : (0 : ℚ) < INITIAL_STEP := by norm_num [INITIAL_STEP]
    linarith

theorem mem_positionAtEnd_gt (tasks : Store) (c : Column) (t : Task)
    (ht : t ∈ tasks) (hc : t.columnId = c) :
    t.position < mem_positionAtEnd tasks c := by
  unfold mem_positionAtEnd
  have hmem : t.position ∈ (tasks.filter (fun t => t.columnId == c)).map Task.position :=
    List.mem_map_of_mem Task.position (List.mem_filter.mpr ⟨ht, by simpa using hc⟩)
  cases hps : (tasks.filter (fun t => t.columnId == c)).map Task.position with
  | nil => rw [hps] at hmem; simp at hmem
  | cons q qs =>
    rw [hps] at hmem
    show t.position < qs.foldl max q + INITIAL_STEP
    have hstep : (0 : ℚ) < INITIAL_STEP := by norm_num [INITIAL_STEP]
    rcases List.mem_cons.mp hmem with he | hmem2
    · have := le_foldl_max qs q
      rw [he]
      linarith
    · have := mem_le_foldl_max qs q t.position hmem2
      linarith

theorem mem_updateTask_inv (s : Store) (p : UpdateTaskPayload) (r : UpdateResult)
    (h : mem_updateTask s p = some r) :
    r.store = s ∨ (∃ current, findTask s p.taskId = some current ∧
      r.task.id = p.taskId ∧ r.task.columnId = current.columnId ∧
      r.task.position = current.position ∧
      r.store = replaceFirst s p.taskId r.task) := by
  unfold mem_updateTask at h
  split at h
  · exact absurd h (by simp)
  · rename_i current hfind
    simp only [] at h
    split at h
    · left
      injection h with h2
      subst h2
      rfl
    · right
      injection h with h2
      subst h2
      refine ⟨current, hfind, ?_, ?_, ?_, rfl⟩
      · exact (bumpVersion_id current _).trans (findTask_id hfind)
      · show ((analyseConflict current p.baseVersion
            p.changes.toMutation).mergedChanges.columnId.getD
            (bumpVersion current _).columnId) = current.columnId
        rw [update_mergedChanges_columnId, Option.getD_none, bumpVersion_columnId]
      · show ((analyseConflict current p.baseVersion
            p.changes.toMutation).mergedChanges.position.getD
            (bumpVersion current _).position) = current.position
        rw [update_mergedChanges_position, Option.getD_none, bumpVersion_position]

theorem mem_moveTask_inv (s : Store) (p : MoveTaskPayload) (r : MoveResult)
    (h : mem_moveTask s p = some r) :
    r.store = s ∨ (∃ current, findTask s p.taskId = some current ∧
      r.task.id = p.taskId ∧ r.store = replaceFirst s p.taskId r.task) := by
  unfold mem_moveTask at h
  split at h
  · exact absurd h (by simp)
  · rename_i current hfind
    simp only [] at h
    split at h
    · left
      injection h with h2
      subst h2
      rfl
    · right
      injection h with h2
      subst h2
      refine ⟨current, hfind, ?_, rfl⟩
      exact (bumpVersion_id current _).trans (findTask_id hfind)

theorem posDistinct_symm :
    ∀ a b : Task, (a.columnId = b.columnId → a.position ≠ b.position) →
      (b.columnId = a.columnId → b.position ≠ a.position) := by
  intro a b hab hc
  exact (hab hc.symm).symm

theorem replaceFirst_storeInv (s : Store) (taskId : Nat) (t' : Task) (n : Nat)
    (hb : ∀ t ∈ s, t.id < n) (hnd : (s.map Task.id).Nodup) (hinv : PosInvariant s)
    (hid : t'.id = taskId)
    (hpos : 0 < t'.position)
    (hfresh : ∀ a ∈ s, a.id ≠ taskId → a.columnId = t'.columnId → a.position ≠ t'.position)
    (hidlt : t'.id < n) :
    (∀ t ∈ replaceFirst s taskId t', t.id < n) ∧
    ((replaceFirst s taskId t').map Task.id).Nodup ∧
    PosInvariant (replaceFirst s taskId t') := by
  refine ⟨?_, ?_, ?_, ?_⟩
  · intro t ht
    rcases mem_replaceFirst s taskId t' t ht with hmem | rfl
    · exact hb t hmem
    · exact hidlt
  · rw [replaceFirst_map_id s taskId t' hid]
    exact hnd
  · exact replaceFirst_positions s taskId t' hinv.1 hpos
  · exact replaceFirst_pairwise posDistinct_symm s taskId t' hnd
      (fun a ha hne => hfresh a ha hne) hinv.2

theorem sublist_storeInv {s s' : Store} (hsub : s'.Sublist s) {n : Nat}
    (hb : ∀ t ∈ s, t.id < n) (hnd : (s.map Task.id).Nodup) (hinv : PosInvariant s) :
    (∀ t ∈ s', t.id < n) ∧ ((s'.map Task.id).Nodup) ∧ PosInvariant s' :=
  ⟨fun t ht => hb t (hsub.subset ht),
   hnd.sublist (hsub.map Task.id),
   fun t ht => hinv.1 t (hsub.subset ht),
   hinv.2.sublist hsub⟩

theorem create_preserves (n : Nat) (s : Store) (p : CreateTaskPayload)
    (hb : ∀ t ∈ s, t.id < n) (hnd : (s.map Task.id).Nodup) (hinv : PosInvariant s)
    (hp : p.position ≤ 0 ∨ (0 < p.position ∧
      ∀ t ∈ s, t.columnId = p.columnId → t.position ≠ p.position)) :
    (∀ t ∈ (mem_createTask n s p).2, t.id < n + 1) ∧
    (((mem_createTask n s p).2.map Task.id).Nodup) ∧
    PosInvariant (mem_createTask n s p).2 := by
  have hposNew : 0 < (if 0 < p.position then p.position else mem_positionAtEnd s p.columnId) := by
    split
    · rename_i h0; exact h0
    · exact mem_positionAtEnd_pos s p.columnId hinv.1
  have hfreshNew : ∀ t ∈ s, t.columnId = p.columnId → t.position ≠
      (if 0 < p.position then p.position else mem_positionAtEnd s p.columnId) := by
    intro t ht hc
    split
    · rename_i h0
      rcases hp with hle | ⟨_, hfr⟩
      · exact absurd h0 (not_lt.mpr hle)
      · exact hfr t ht hc
    · exact ne_of_lt (mem_positionAtEnd_gt s p.columnId t ht hc)
  refine ⟨?_, ?_, ?_, ?_⟩
  · intro t ht
    rcases List.mem_append.mp ht with hmem | hmem
    · exact lt_trans (hb t hmem) (Nat.lt_succ_self n)
    · rw [List.mem_singleton.mp hmem]
      exact Nat.lt_succ_self n
  · show ((s ++ [_]).map Task.id).Nodup
    rw [List.map_append, List.nodup_append]
    refine ⟨hnd, by simp, ?_⟩
    intro a ha ha2
    obtain ⟨t, ht, rfl⟩ := List.mem_map.mp ha
    simp only [List.map_cons, List.map_nil, List.mem_singleton] at ha2
    exact absurd ha2 (Nat.ne_of_lt (hb t ht))
  · intro t ht
    rcases List.mem_append.mp ht with hmem | hmem
    · exact hinv.1 t hmem
    · rw [List.mem_singleton.mp hmem]
      exact hposNew
  · show List.Pairwise _ (s ++ [_])
    rw [List.pairwise_append]
    refine ⟨hinv.2, by simp, ?_⟩
    intro a ha b hbmem
    rw [List.mem_singleton.mp hbmem]
    intro hcol
    exact hfreshNew a ha hcol

theorem rebalance_preserves (s : Store) (c : Column) (n : Nat)
    (hb : ∀ t ∈ s, t.id < n) (hnd : (s.map Task.id).Nodup) (hinv : PosInvariant s) :
    (∀ t ∈ (mem_rebalanceColumn s c).2, t.id < n) ∧
    (((mem_rebalanceColumn s c).2.map Task.id).Nodup) ∧
    PosInvariant (mem_rebalanceColumn s c).2 := by
  have hcnd := columnTasksSorted_map_id_nodup (s := s) (c := c) hnd
  have hmap : (mem_rebalanceColumn s c).2 = s.map (applyRebal (columnTasksSorted s c) 0) :=
    rebalanceGo_snd_eq _ 0 s hnd hcnd
  have hids : (mem_rebalanceColumn s c).2.map Task.id = s.map Task.id :=
    rebalanceGo_snd_map_id _ 0 s
  refine ⟨?_, ?_, ?_, ?_⟩
  · intro t ht
    rw [hmap] at ht
    obtain ⟨a, ha, rfl⟩ := List.mem_map.mp ht
    rw [applyRebal_id]
    exact hb a ha
  · rw [hids]
    exact hnd
  · intro t ht
    rw [hmap] at ht
    obtain ⟨a, ha, rfl⟩ := List.mem_map.mp ht
    rcases applyRebal_cases (columnTasksSorted s c) 0 a with ⟨_, he⟩ | ⟨j, t2, _, _, he⟩
    · rw [he]
      exact hinv.1 a ha
    · rw [he]
      exact rebalTransform_pos _ _
  · rw [hmap]
    show (List.map (applyRebal (columnTasksSorted s c) 0) s).Pairwise
      (fun a b : Task => a.columnId = b.columnId → a.position ≠ b.position)
    rw [List.pairwise_map]
    have hidpw : s.Pairwise (fun a b => a.id ≠ b.id) := by
      have hnd2 := hnd
      rw [List.Nodup, List.pairwise_map] at hnd2
      exact hnd2
    have hcomb := List.Pairwise.and hinv.2 hidpw
    refine List.Pairwise.imp_of_mem ?_ hcomb
    intro a b ha hb2 hab
    obtain ⟨hR, hneid⟩ := hab
    intro hcol
    rcases applyRebal_cases (columnTasksSorted s c) 0 a with ⟨hna, hea⟩ |
        ⟨j1, t1, hg1, hid1, hea⟩ <;>
      rcases applyRebal_cases (columnTasksSorted s c) 0 b with ⟨hnb, heb⟩ |
        ⟨j2, t2, hg2, hid2, heb⟩
    · rw [hea, heb] at hcol ⊢
      exact hR hcol
    · rw [hea, heb] at hcol
      rw [hea, heb]
      have ht2 : t2 ∈ columnTasksSorted s c := List.get?_mem hg2
      have ht2c : t2.columnId = c := (mem_columnTasksSorted.mp ht2).2
      have hac : a.columnId = c := by
        rw [show (rebalTransform (0 + j2) t2).columnId = t2.columnId from rfl] at hcol
        exact hcol.trans ht2c
      exact absurd (List.mem_map_of_mem Task.id (mem_columnTasksSorted.mpr ⟨ha, hac⟩)) hna
    · rw [hea, heb] at hcol
      rw [hea, heb]
      have ht1 : t1 ∈ columnTasksSorted s c := List.get?_mem hg1
      have ht1c : t1.columnId = c := (mem_columnTasksSorted.mp ht1).2
      have hbc : b.columnId = c := by
        rw [show (rebalTransform (0 + j1) t1).columnId = t1.columnId from rfl] at hcol
        exact hcol.symm.trans ht1c
      exact absurd (List.mem_map_of_mem Task.id (mem_columnTasksSorted.mpr ⟨hb2, hbc⟩)) hnb
    · rw [hea, heb]
      have hj : j1 ≠ j2 := by
        intro he
        rw [he, hg2] at hg1
        injection hg1 with hg1
        exact hneid (hid1.trans (hg1 ▸ hid2.symm))
      show (rebalTransform (0 + j1) t1).position ≠ (rebalTransform (0 + j2) t2).position
      intro hpe
      have hpe2 : (((0 + j1 : Nat) : ℚ) + 1) * INITIAL_STEP =
          (((0 + j2 : Nat) : ℚ) + 1) * INITIAL_STEP := hpe
      have hstep : (INITIAL_STEP : ℚ) ≠ 0 := by norm_num [INITIAL_STEP]
      have h3 := mul_right_cancel₀ hstep hpe2
      have h4 : ((0 + j1 : Nat) : ℚ) = ((0 + j2 : Nat) : ℚ) := by linarith
      have h5 : (0 + j1 : Nat) = (0 + j2 : Nat) := Nat.cast_injective h4
      omega

theorem mem_deleteTask_sublist (s : Store) (p : DeleteTaskPayload) :
    (mem_deleteTask s p).store.Sublist s := by
  unfold mem_deleteTask
  split
  · exact List.Sublist.refl s
  · exact removeFirst_sublist s p.taskId

theorem reachSafe_storeInv {n : Nat} {s : Store} (h : ReachSafe n s) :
    (∀ t ∈ s, t.id < n) ∧ ((s.map Task.id).Nodup) ∧ PosInvariant s := by
  induction h with
  | init =>
    refine ⟨?_, ?_, ?_, ?_⟩
    · intro t ht; simp at ht
    · simp
    · intro t ht; simp at ht
    · exact List.Pairwise.nil
  | create n s p hp hre ih =>
    exact create_preserves n s p ih.1 ih.2.1 ih.2.2 hp
  | update n s p r hre hm ih =>
    rcases mem_updateTask_inv s p r hm with hstore | ⟨current, hfind, hid, hcol, hpos2, hstore⟩
    · rw [hstore]; exact ih
    · rw [hstore]
      have hcur : current ∈ s := findTask_mem hfind
      refine replaceFirst_storeInv s p.taskId r.task n ih.1 ih.2.1 ih.2.2 hid ?_ ?_ ?_
      · rw [hpos2]
        exact ih.2.2.1 current hcur
      · intro a ha hne hcc
        have hane : a ≠ current := fun he => hne (by rw [he]; exact findTask_id hfind)
        have hsym : Symmetric
            (fun a b : Task => a.columnId = b.columnId → a.position ≠ b.position) :=
          fun a b hab => posDistinct_symm a b hab
        have hram := List.Pairwise.forall hsym ih.2.2.2 ha hcur hane
        rw [hcol] at hcc
        rw [hpos2]
        exact hram hcc
      · rw [hid, ← findTask_id hfind]
        exact ih.1 current hcur
  | move n s p r hpos hfresh hre hm ih =>
    rcases mem_moveTask_inv s p r hm with hstore | ⟨current, hfind, hid, hstore⟩
    · rw [hstore]; exact ih
    · rw [hstore]
      refine replaceFirst_storeInv s p.taskId r.task n ih.1 ih.2.1 ih.2.2 hid hpos hfresh ?_
      rw [hid, ← findTask_id hfind]
      exact ih.1 current (findTask_mem hfind)
  | delete n s p hre ih =>
    exact sublist_storeInv (mem_deleteTask_sublist s p) ih.1 ih.2.1 ih.2.2
  | rebalance n s c hre ih =>
    exact rebalance_preserves s c n ih.1 ih.2.1 ih.2.2

/-- C9 counterexample: two `createTask` calls carrying the same explicit
client position (65536) put two distinct tasks at the same position of one
column, so the claimed invariant fails in a reachable state. -/
theorem position_invariant_counterexample :
    ReachClaim 2 (mem_createTask 1 (mem_createTask 0 [] dupCreate).2 dupCreate).2 ∧
    ¬ PosInvariant (mem_createTask 1 (mem_createTask 0 [] dupCreate).2 dupCreate).2 :=
  ⟨ReachClaim.create 1 (mem_createTask 0 [] dupCreate).2 dupCreate
      (ReachClaim.create 0 [] dupCreate ReachClaim.init),
   by decide⟩

/-- C9 (amended): in every state reachable through createTask, updateTask,
moveTask, deleteTask and completed rebalanceColumn transactions, any two
distinct tasks in the same column have distinct positions and every
position is strictly positive — provided every client-supplied position
that is actually written (an explicit positive create position, or the
resulting move position) is positive and does not collide with another
task of its column; the code itself neither validates nor rejects a
colliding or non-positive client position, it only flags a rebalance. -/
theorem position_invariant {n : Nat} {s : Store} (h : ReachSafe n s) : PosInvariant s :=
  (reachSafe_storeInv h).2.2

/-- C9 witness: a single server-positioned create from the empty store. -/
theorem position_invariant_witness :
    ReachSafe 1 (mem_createTask 0 [] appendCreate).2 ∧
    PosInvariant (mem_createTask 0 [] appendCreate).2 :=
  ⟨ReachSafe.create 0 [] appendCreate (Or.inl (by decide)) ReachSafe.init,
   position_invariant (ReachSafe.create 0 [] appendCreate (Or.inl (by decide)) ReachSafe.init)⟩

theorem positionAtEnd_eq (tasks : Store) (c : Column) :
    mem_positionAtEnd tasks c = sql_positionAtEnd tasks c := by
  unfold mem_positionAtEnd sql_positionAtEnd
  cases hps : (tasks.filter (fun t => t.columnId == c)).map Task.position with
  | nil =>
    show INITIAL_STEP = 0 + INITIAL_STEP
    rw [zero_add]
  | cons q qs => rfl

theorem mem_createTask_eq_sql (n : Nat) (tasks : Store) (p : CreateTaskPayload) :
    mem_createTask n tasks p = sql_createTask n tasks p := by
  unfold mem_createTask sql_createTask
  rw [positionAtEnd_eq]

theorem applyBump_update_eq (current : Task) (m : TaskMutation)
    (hc : m.columnId = none) (hp2 : m.position = none) :
    applyMutation (bumpVersion current (changeEntries m)) m =
    { current with
      title := m.title.getD current.title
      titleVersion := if m.title.isSome then current.version + 1 else current.titleVersion
      description := m.description.getD current.description
      descriptionVersion := if m.description.isSome then current.version + 1
        else current.descriptionVersion
      version := current.version + 1 } := by
  obtain ⟨mt, md, mc, mp⟩ := m
  cases mc with
  | some c => simp at hc
  | none =>
    cases mp with
    | some q => simp at hp2
    | none => cases mt <;> cases md <;> rfl

theorem mem_updateTask_eq_sql (tasks : Store) (p : UpdateTaskPayload)
    (hnd : (tasks.map Task.id).Nodup) :
    mem_updateTask tasks p = sql_updateTask tasks p := by
  unfold mem_updateTask sql_updateTask
  cases hfind : findTask tasks p.taskId with
  | none => rfl
  | some current =>
    simp only []
    by_cases hrej : (analyseConflict current p.baseVersion
        p.changes.toMutation).fullyRejected = true
    · simp [hrej]
    · have htask := applyBump_update_eq current
        (analyseConflict current p.baseVersion p.changes.toMutation).mergedChanges
        (update_mergedChanges_columnId current p.baseVersion p.changes)
        (update_mergedChanges_position current p.baseVersion p.changes)
      simp only [hrej, if_false, ite_false, Bool.false_eq_true]
      rw [htask, replaceFirst_eq_updateRows _ _ _ hnd]

theorem take2_sorted_any (l : List ℚ) (g : ℚ) :
    ((l.insertionSort (· ≤ ·)).take 2).any (fun d2 => decide (d2 < g)) =
      l.any (fun d2 => decide (d2 < g)) := by
  by_cases h : ∃ x ∈ l, x < g
  · obtain ⟨x, hx, hxg⟩ := h
    have hperm := List.perm_insertionSort (r := (· ≤ · : ℚ → ℚ → Prop)) l
    have hx2 : x ∈ l.insertionSort (· ≤ ·) := hperm.mem_iff.mpr hx
    cases hs : l.insertionSort (· ≤ ·) with
    | nil => rw [hs] at hx2; simp at hx2
    | cons h0 rest =>
      have hsorted := List.sorted_insertionSort (r := (· ≤ · : ℚ → ℚ → Prop)) l
      rw [hs] at hsorted hx2
      have hh0 : h0 ≤ x := by
        rcases List.mem_cons.mp hx2 with rfl | hmem
        · exact le_refl x
        · exact (List.pairwise_cons.mp hsorted).1 x hmem
      have hh0g : h0 < g := lt_of_le_of_lt hh0 hxg
      have h1 : ((h0 :: rest).take 2).any (fun d2 => decide (d2 < g)) = true := by
        rw [List.any_eq_true]
        refine ⟨h0, ?_, by simpa using hh0g⟩
        cases rest <;> simp
      have h2 : l.any (fun d2 => decide (d2 < g)) = true := by
        rw [List.any_eq_true]
        exact ⟨x, hx, by simpa using hxg⟩
      rw [h1, h2]
  · push_neg at h
    have h1 : l.any (fun d2 => decide (d2 < g)) = false := by
      rw [List.any_eq_false]
      intro x hx
      simpa using not_lt.mpr (h x hx)
    have h2 : ((l.insertionSort (· ≤ ·)).take 2).any (fun d2 => decide (d2 < g)) = false := by
      rw [List.any_eq_false]
      intro x hx
      have hxl : x ∈ l :=
        (List.perm_insertionSort (r := (· ≤ · : ℚ → ℚ → Prop)) l).mem_iff.mp
          (List.take_subset 2 _ hx)
      simpa using not_lt.mpr (h x hxl)
    rw [h1, h2]

theorem mem_moveTask_eq_sql (tasks : Store) (p : MoveTaskPayload)
    (hnd : (tasks.map Task.id).Nodup) :
    mem_moveTask tasks p = sql_moveTask tasks p := by
  unfold mem_moveTask sql_moveTask
  cases hfind : findTask tasks p.taskId with
  | none => rfl
  | some current =>
    simp only []
    by_cases hrej : (analyseConflict current p.baseVersion
        { columnId := some p.columnId, position := some p.position }).fullyRejected = true
    · simp [hrej]
    · simp only [hrej, if_false, ite_false, Bool.false_eq_true]
      rw [replaceFirst_eq_updateRows _ _ _ hnd]
      simp only [bumpVersion_id, findTask_id hfind]
      rw [take2_sorted_any]
      rfl

theorem mem_deleteTask_eq_sql (tasks : Store) (p : DeleteTaskPayload)
    (hnd : (tasks.map Task.id).Nodup) :
    mem_deleteTask tasks p = sql_deleteTask tasks p := by
  unfold mem_deleteTask sql_deleteTask
  rw [findTask_eq_filter_head]
  cases hfl : tasks.filter (fun t => t.id == p.taskId) with
  | nil => rfl
  | cons t rest =>
    show ({ deleted := true, task := some t, store := removeFirst tasks p.taskId } :
        DeleteResult) =
      { deleted := true, task := some t, store := deleteRows tasks p.taskId }
    rw [removeFirst_eq_deleteRows tasks p.taskId hnd]

theorem rebalanceGo_eq_sql : ∀ (c : List Task) (i : Nat) (s : Store),
    (s.map Task.id).Nodup → rebalanceGo c i s = sql_rebalanceGo c i s := by
  intro c
  induction c with
  | nil => intro i s _; rfl
  | cons t rest ih =>
    intro i s hnd
    simp only [rebalanceGo, sql_rebalanceGo]
    rw [replaceFirst_eq_updateRows _ _ _ hnd]
    rw [ih (i + 1) _ (by
      rw [updateRows_map_id s t.id (rebalTransform i t) rfl]
      exact hnd)]

theorem mem_rebalanceColumn_eq_sql (tasks : Store) (c : Column)
    (hnd : (tasks.map Task.id).Nodup) :
    mem_rebalanceColumn tasks c = sql_rebalanceColumn tasks c := by
  unfold mem_rebalanceColumn sql_rebalanceColumn
  exact rebalanceGo_eq_sql _ 0 tasks hnd

theorem bound_of_map_id_eq {s s' : Store} {n : Nat} (h : s'.map Task.id = s.map Task.id)
    (hb : ∀ t ∈ s, t.id < n) : ∀ t ∈ s', t.id < n := by
  intro t ht
  have hm : t.id ∈ s'.map Task.id := List.mem_map_of_mem Task.id ht
  rw [h] at hm
  obtain ⟨u, hu, he⟩ := List.mem_map.mp hm
  rw [← he]
  exact hb u hu

theorem mem_updateTask_map_id (s : Store) (p : UpdateTaskPayload) (r : UpdateResult)
    (h : mem_updateTask s p = some r) : r.store.map Task.id = s.map Task.id := by
  rcases mem_updateTask_inv s p r h with hstore | ⟨current, hfind, hid, _, _, hstore⟩
  · rw [hstore]
  · rw [hstore, replaceFirst_map_id s p.taskId r.task hid]

theorem mem_moveTask_map_id (s : Store) (p : MoveTaskPayload) (r : MoveResult)
    (h : mem_moveTask s p = some r) : r.store.map Task.id = s.map Task.id := by
  rcases mem_moveTask_inv s p r h with hstore | ⟨current, hfind, hid, hstore⟩
  · rw [hstore]
  · rw [hstore, replaceFirst_map_id s p.taskId r.task hid]

theorem mem_rebalanceColumn_map_id (s : Store) (c : Column) :
    (mem_rebalanceColumn s c).2.map Task.id = s.map Task.id :=
  rebalanceGo_snd_map_id _ 0 s

theorem memStep_wf (n : Nat) (s : Store) (op : Op)
    (hb : ∀ t ∈ s, t.id < n) (hnd : (s.map Task.id).Nodup) :
    (∀ t ∈ (memStep (n, s) op).2.2, t.id < (memStep (n, s) op).2.1) ∧
    (((memStep (n, s) op).2.2).map Task.id).Nodup := by
  cases op with
  | create p =>
    constructor
    · intro t ht
      rcases List.mem_append.mp ht with hmem | hmem
      · exact lt_trans (hb t hmem) (Nat.lt_succ_self n)
      · rw [List.mem_singleton.mp hmem]
        exact Nat.lt_succ_self n
    · show ((s ++ [_]).map Task.id).Nodup
      rw [List.map_append, List.nodup_append]
      refine ⟨hnd, by simp, ?_⟩
      intro a ha ha2
      obtain ⟨t, ht, rfl⟩ := List.mem_map.mp ha
      simp only [List.map_cons, List.map_nil, List.mem_singleton] at ha2
      exact absurd ha2 (Nat.ne_of_lt (hb t ht))
  | update p =>
    cases hm : mem_updateTask s p with
    | none =>
      simp only [memStep, hm]
      exact ⟨hb, hnd⟩
    | some r =>
      simp only [memStep, hm]
      have hmap := mem_updateTask_map_id s p r hm
      exact ⟨bound_of_map_id_eq hmap hb, by rw [hmap]; exact hnd⟩
  | move p =>
    cases hm : mem_moveTask s p with
    | none =>
      simp only [memStep, hm]
      exact ⟨hb, hnd⟩
    | some r =>
      simp only [memStep, hm]
      have hmap := mem_moveTask_map_id s p r hm
      exact ⟨bound_of_map_id_eq hmap hb, by rw [hmap]; exact hnd⟩
  | delete p =>
    have hsub := mem_deleteTask_sublist s p
    exact ⟨fun t ht => hb t (hsub.subset ht), hnd.sublist (hsub.map Task.id)⟩
  | rebalance c =>
    have hmap := mem_rebalanceColumn_map_id s c
    exact ⟨bound_of_map_id_eq hmap hb, by
      show ((mem_rebalanceColumn s c).2.map Task.id).Nodup
      rw [hmap]
      exact hnd⟩

theorem memStep_eq_sqlStep (n : Nat) (s : Store) (op : Op)
    (hnd : (s.map Task.id).Nodup) : memStep (n, s) op = sqlStep (n, s) op := by
  cases op with
  | create p => simp only [memStep, sqlStep, mem_createTask_eq_sql]
  | update p => simp only [memStep, sqlStep, mem_updateTask_eq_sql s p hnd]
  | move p => simp only [memStep, sqlStep, mem_moveTask_eq_sql s p hnd]
  | delete p => simp only [memStep, sqlStep, mem_deleteTask_eq_sql s p hnd]
  | rebalance c => simp only [memStep, sqlStep, mem_rebalanceColumn_eq_sql s c hnd]

theorem runStores_eq : ∀ (ops : List Op) (st : Nat × Store),
    (∀ t ∈ st.2, t.id < st.1) → ((st.2.map Task.id).Nodup) →
    runMem st ops = runSql st ops := by
  intro ops
  induction ops with
  | nil => intro st _ _; rfl
  | cons op ops ih =>
    intro st hb hnd
    obtain ⟨n, s⟩ := st
    simp only [runMem, runSql]
    rw [← memStep_eq_sqlStep n s op hnd]
    have hwf := memStep_wf n s op hb hnd
    rw [ih (memStep (n, s) op).2 hwf.1 hwf.2]

/-- C10: from any well-formed task set (unique ids drawn below the id
supply), every sequence of create / update / move / delete / rebalance
operations returns, step by step, the same results (task values, conflict
payloads, needsRebalance and deleted flags) and produces the same task
state under the in-memory store as under the SQL-backed task service.
Server-assigned ids are identified by running both sides on one id
supply, and timestamps are omitted from the task model. -/
theorem store_refinement (ops : List Op) (st : Nat × Store)
    (hids : ∀ t ∈ st.2, t.id < st.1) (hnd : (st.2.map Task.id).Nodup) :
    runMem st ops = runSql st ops :=
  runStores_eq ops st hids hnd

/-- C10 witness: an update then a delete on a singleton store. -/
theorem store_refinement_witness :
    (∀ t ∈ ((2, [taskFresh]) : Nat × Store).2, t.id < 2) ∧
    ((([taskFresh] : Store).map Task.id).Nodup) ∧
    runMem (2, [taskFresh]) [Op.update updFresh, Op.delete { taskId := 1 }] =
      runSql (2, [taskFresh]) [Op.update updFresh, Op.delete { taskId := 1 }] :=
  ⟨by decide, by decide,
    store_refinement [Op.update updFresh, Op.delete { taskId := 1 }] (2, [taskFresh])
      (by decide) (by decide)⟩

end Kanban
